import Mathlib

set_option maxHeartbeats 1000000
set_option linter.unusedVariables false

/-!
Shallow embedding of the OpenAPI extraction core in `src/openapi/extract.py`
(class `OpenAPIPathExtractor`).  Parsed JSON documents are modelled by the
inductive type `Json`; Python dictionaries are association lists with unique
keys in insertion order, which matches the iteration and update order of
Python dicts.  Numbers are modelled as integers (the claims under study never
depend on fractional values).  The mutually recursive resolver is written
with an explicit fuel argument so that it is a total structural recursion;
the fuel is an artifact of the embedding, and a separate theorem shows that
for every document some fuel suffices (termination of the Python recursion).
-/

/-- A parsed JSON / YAML tree, the input format of the extractor. -/
inductive Json where
  | null
  | bool (b : Bool)
  | num (n : Int)
  | str (s : String)
  | arr (items : List Json)
  | obj (fields : List (String × Json))

/-- Lookup of a key in a Python dict (association list, first match). -/
def jGet : List (String × Json) → String → Option Json
  | [], _ => none
  | (k, v) :: rest, key => if k = key then some v else jGet rest key

/-- Python `key in dict`. -/
def jHas (fields : List (String × Json)) (key : String) : Bool :=
  (jGet fields key).isSome

/-- Python `dict[key] = v`: replace the value in place if the key exists
(keeping its position, as Python dicts do), else append. -/
def jSet : List (String × Json) → String → Json → List (String × Json)
  | [], key, v => [(key, v)]
  | (k, w) :: rest, key, v =>
    if k = key then (k, v) :: rest else (k, w) :: jSet rest key v

/-- Python truthiness of a JSON value: `None`, `False`, `0`, `""`, `[]` and
an empty dict are falsy, everything else is truthy. -/
def pyTruthy : Json → Bool
  | .null => false
  | .bool b => b
  | .num n => n != 0
  | .str s => !s.isEmpty
  | .arr items => !items.isEmpty
  | .obj fields => !fields.isEmpty

/-- Python `isinstance(x, dict)`. -/
def isDict : Json → Bool
  | .obj _ => true
  | _ => false

/-- Python `isinstance(x, list)`. -/
def isList : Json → Bool
  | .arr _ => true
  | _ => false

/-- The method `safe_get` of `OpenAPIPathExtractor`: `obj.get(key, default)`
for dicts, the default for any other value. -/
def safe_get (o : Json) (key : String) (default : Json) : Json :=
  match o with
  | .obj fields => (jGet fields key).getD default
  | _ => default

/-- Rendering of a `$ref` value that is not a string, used only to build the
message of the fallback placeholder (Python interpolates the value into an
f-string; the exact text is irrelevant to every claim). -/
def refValueText : Json → String
  | .null => "None"
  | .bool true => "True"
  | .bool false => "False"
  | .num n => toString n
  | .str s => s
  | .arr _ => "[list]"
  | .obj _ => "[dict]"

/-- Python `s.split(sep)` for a one-character separator, keeping empty
segments (`"".split("/") == [""]`). -/
def splitChar (sep : Char) : List Char → List String
  | [] => [""]
  | c :: rest =>
    let segs := splitChar sep rest
    if c = sep then "" :: segs
    else
      match segs with
      | s :: ss => String.mk (c :: s.data) :: ss
      | [] => [String.mk [c]]

/-- Python `ref_path.startswith("#/")`. -/
def refIsInternal (s : String) : Bool :=
  match s.data with
  | '#' :: '/' :: _ => true
  | _ => false

/-- Python `ref_path[2:].split('/')`. -/
def refSegments (s : String) : List String :=
  splitChar '/' (s.data.drop 2)

/-- Placeholder returned by `resolve_reference` when the ref is already on
the active resolution chain. -/
def circularPlaceholder (ref : String) : Json :=
  .obj [("type", .str "object"),
        ("description", .str ("Circular reference to " ++ ref))]

/-- Placeholder returned by `resolve_reference` when navigation through the
document fails. -/
def unresolvedPlaceholder (ref : String) : Json :=
  .obj [("type", .str "object"),
        ("description", .str ("Unresolved reference: " ++ ref))]

/-- Placeholder substituted by `dereference_object` when
`resolve_reference` raises (non-internal reference). -/
def failedPlaceholder (refText : String) : Json :=
  .obj [("type", .str "object"),
        ("description", .str ("Failed to resolve: " ++ refText))]

/-- Navigation loop of `resolve_reference`: walk the spec along the `/`
separated segments; each step requires the current node to be a dict that
contains the segment, otherwise the lookup fails. -/
def walkPath : Json → List String → Option Json
  | current, [] => some current
  | current, part :: rest =>
    match current with
    | .obj fields =>
      match jGet fields part with
      | some next => walkPath next rest
      | none => none
    | _ => none

/-- Cache of resolved references (`self.resolved_refs`). -/
abbrev Cache := List (String × Json)

/-- Outcome of `resolve_reference`: out of fuel (embedding artifact), a
raised `ValueError` (only for non-internal references; the caller catches
it), or a returned node. -/
inductive RRes where
  | out
  | thrown
  | ok (v : Json)

mutual

/-- The method `resolve_reference(ref_path, visited)`.  The cache is
threaded explicitly (it is instance state in Python).  `visited` is the
active resolution chain of the current top-level call. -/
def resolve_reference : Nat → Json → Cache → String → List String → RRes × Cache
  | 0, _, cache, _, _ => (.out, cache)
  | fuel+1, spec, cache, ref, visited =>
    if visited.contains ref then
      (.ok (circularPlaceholder ref), cache)
    else
      match jGet cache ref with
      | some v => (.ok v, cache)
      | none =>
        if !refIsInternal ref then (.thrown, cache)
        else
          match walkPath spec (refSegments ref) with
          | none => (.ok (unresolvedPlaceholder ref), cache)
          | some target =>
            match dereference_object fuel spec cache target (ref :: visited) 0 with
            | none => (.out, cache)
            | some (resolved, c2) => (.ok resolved, jSet c2 ref resolved)

/-- The method `dereference_object(obj, visited, depth)`.  Returns `none`
only on fuel exhaustion.  A dict containing `$ref` is replaced by the
resolution of that ref; a raised `ValueError` is caught here and replaced
by a placeholder, exactly as the Python `try`/`except` does. -/
def dereference_object : Nat → Json → Cache → Json → List String → Nat → Option (Json × Cache)
  | 0, _, _, _, _, _ => none
  | fuel+1, spec, cache, o, visited, depth =>
    if depth > 50 then some (o, cache)
    else
      match o with
      | .obj fields =>
        match jGet fields "$ref" with
        | some (.str r) =>
          match resolve_reference fuel spec cache r visited with
          | (.out, _) => none
          | (.thrown, c) => some (failedPlaceholder r, c)
          | (.ok v, c) => some (v, c)
        | some other =>
          -- a non-string `$ref` value makes `resolve_reference` raise
          -- before touching any state; `dereference_object` catches it
          some (failedPlaceholder (refValueText other), cache)
        | none =>
          match dereference_fields fuel spec cache fields visited depth with
          | none => none
          | some (fs, c) => some (.obj fs, c)
      | .arr items =>
        match dereference_items fuel spec cache items visited depth with
        | none => none
        | some (xs, c) => some (.arr xs, c)
      | prim => some (prim, cache)

/-- Loop of `dereference_object` over the entries of a dict without
`$ref`: every value is dereferenced at `depth + 1`, keys keep their
order. -/
def dereference_fields : Nat → Json → Cache → List (String × Json) → List String → Nat → Option (List (String × Json) × Cache)
  | 0, _, _, _, _, _ => none
  | _+1, _, cache, [], _, _ => some ([], cache)
  | fuel+1, spec, cache, (k, v) :: rest, visited, depth =>
    match dereference_object fuel spec cache v visited (depth + 1) with
    | none => none
    | some (v2, c2) =>
      match dereference_fields fuel spec c2 rest visited depth with
      | none => none
      | some (fs, c3) => some ((k, v2) :: fs, c3)

/-- Loop of `dereference_object` over the items of a list. -/
def dereference_items : Nat → Json → Cache → List Json → List String → Nat → Option (List Json × Cache)
  | 0, _, _, _, _, _ => none
  | _+1, _, cache, [], _, _ => some ([], cache)
  | fuel+1, spec, cache, v :: rest, visited, depth =>
    match dereference_object fuel spec cache v visited (depth + 1) with
    | none => none
    | some (v2, c2) =>
      match dereference_items fuel spec c2 rest visited depth with
      | none => none
      | some (xs, c3) => some (v2 :: xs, c3)

end

/-- The degraded schema `\x7b"type": "string"\x7d` returned by the schema
converter for non-dict input and on any caught error. -/
def strSchema : Json := .obj [("type", .str "string")]

/-- Python `x == "t"` for a value of unknown type: true only for the equal
string. -/
def jEqStr (j : Json) (t : String) : Bool :=
  match j with
  | .str s => s = t
  | _ => false

/-- Leading-segment test on character lists. -/
def charsMatchStart : List Char → List Char → Bool
  | [], _ => true
  | _ :: _, [] => false
  | n :: ns, h :: hs => n = h && charsMatchStart ns hs

/-- Substring test on character lists. -/
def charsContain (hay needle : List Char) : Bool :=
  if charsMatchStart needle hay then true
  else
    match hay with
    | [] => false
    | _ :: rest => charsContain rest needle

/-- Python `needle in hay` on strings (substring test). -/
def strContains (hay needle : String) : Bool :=
  charsContain hay.data needle.data

/-- Constraint passthrough of the schema converter: copy the field verbatim
when it is present with a non-`None` value. -/
def addConstraint (fields : List (String × Json)) (js : List (String × Json)) (name : String) : List (String × Json) :=
  match jGet fields name with
  | none => js
  | some .null => js
  | some v => jSet js name v

mutual

/-- The method `convert_openapi_schema_to_json_schema(schema)`.  Non-dict
input and any caught error degrade to `strSchema`; fuel exhaustion also
degrades to `strSchema`, matching the per-level `except` that would catch a
`RecursionError` in unboundedly deep schemas. -/
def convert_openapi_schema_to_json_schema : Nat → Json → Json
  | 0, _ => strSchema
  | fuel+1, schema =>
    match schema with
    | .obj fields =>
      match convert_schema_fields fuel fields with
      | .ok j => j
      | .error _ => strSchema
    | _ => strSchema

/-- Body of the `try` block of `convert_openapi_schema_to_json_schema` for
dict input; `throw` marks the places where the Python code raises (indexing
a non-sequence `enum`, iterating a non-dict `properties`). -/
def convert_schema_fields : Nat → List (String × Json) → Except Unit Json
  | 0, _ => .error ()
  | fuel+1, fields => do
    let schema := Json.obj fields
    let st0 := safe_get schema "type" .null
    let st ←
      if pyTruthy st0 then pure st0
      else if jHas fields "properties" || jHas fields "additionalProperties" then
        pure (Json.str "object")
      else if jHas fields "items" then pure (Json.str "array")
      else if jHas fields "enum" then
        -- infer from the first enum value when the enum is truthy.  Note
        -- that in Python `bool` is a subclass of `int`, so a boolean first
        -- value satisfies `isinstance(first_val, (int, float))` and is
        -- classified as "number"; the explicit `isinstance(first_val, bool)`
        -- branch of the source is unreachable.
        match (jGet fields "enum").getD (.arr []) with
        | .arr (v :: _) =>
          match v with
          | .str _ => pure (Json.str "string")
          | .num _ => pure (Json.str "number")
          | .bool _ => pure (Json.str "number")
          | _ => pure Json.null
        | .arr [] => pure Json.null
        | .str s =>
          -- indexing a string yields a one-character string
          if s.isEmpty then pure Json.null else pure (Json.str "string")
        | .null => pure Json.null
        | .bool b => if b then throw () else pure Json.null
        | .num n => if n != 0 then throw () else pure Json.null
        | .obj fs => if fs.isEmpty then pure Json.null else throw ()
      else pure (Json.str "string")
    let js := jSet [] "type" st
    let desc := safe_get schema "description" .null
    let js := if pyTruthy desc then jSet js "description" desc else js
    let ev := safe_get schema "enum" .null
    let js := if pyTruthy ev then jSet js "enum" ev else js
    let fv := safe_get schema "format" .null
    let js := if pyTruthy fv then jSet js "format" fv else js
    let js ←
      if jEqStr st "array" then
        pure (jSet js "items"
          (convert_openapi_schema_to_json_schema fuel (safe_get schema "items" (.obj []))))
      else if jEqStr st "object" then do
        let props := safe_get schema "properties" (.obj [])
        let js ←
          if pyTruthy props then
            match props with
            | .obj pf => pure (jSet js "properties" (.obj (convert_properties fuel pf)))
            | _ => throw ()   -- `.items()` on a non-dict raises
          else pure js
        let req := safe_get schema "required" (.arr [])
        let js := if pyTruthy req then jSet js "required" req else js
        let js :=
          match jGet fields "additionalProperties" with
          | none => js
          | some .null => js
          | some (.obj af) =>
            jSet js "additionalProperties"
              (convert_openapi_schema_to_json_schema fuel (.obj af))
          | some v => jSet js "additionalProperties" v
        pure js
      else pure js
    let js := addConstraint fields js "minimum"
    let js := addConstraint fields js "maximum"
    let js := addConstraint fields js "minLength"
    let js := addConstraint fields js "maxLength"
    let js := addConstraint fields js "pattern"
    let js := addConstraint fields js "default"
    let js := addConstraint fields js "example"
    pure (Json.obj js)

/-- Loop converting every property value of an object schema. -/
def convert_properties : Nat → List (String × Json) → List (String × Json)
  | 0, _ => []
  | _+1, [] => []
  | fuel+1, (k, v) :: rest =>
    (k, convert_openapi_schema_to_json_schema fuel v) :: convert_properties fuel rest

end


/-- Python `s.upper()` (ASCII; the extractor only upcases HTTP verbs). -/
def upperAscii (s : String) : String := String.mk (s.data.map Char.toUpper)

/-- Python `s.lower()` (ASCII). -/
def lowerAscii (s : String) : String := String.mk (s.data.map Char.toLower)

/-- Python `s.rstrip('/')`. -/
def rstripSlash (s : String) : String :=
  String.mk ((s.data.reverse.dropWhile (fun c => c = '/')).reverse)

/-- Python `s.replace(old, new)` for a one-character pattern (the extractor
only replaces `/`, `\x7b` and `\x7d`). -/
def pyReplaceChar (old : Char) (new : String) (s : String) : String :=
  String.mk (s.data.foldr (fun c acc => (if c = old then new.data else [c]) ++ acc) [])

/-- The character class `[a-zA-Z0-9]` of the regexes in the source. -/
def isAsciiAlnum (c : Char) : Bool :=
  ('a' ≤ c && c ≤ 'z') || ('A' ≤ c && c ≤ 'Z') || ('0' ≤ c && c ≤ '9')

/-- Python `word[0].upper() + word[1:].lower()` for a non-empty word. -/
def capitalizeWord (w : String) : String :=
  match w.data with
  | [] => ""
  | c :: rest => String.mk (c.toUpper :: rest.map Char.toLower)

/-- The function `to_camel_case(text)`: every non-alphanumeric character
becomes a space, the text is split into words, the first word is lowered
and every later word is capitalized. -/
def to_camel_case (text : String) : String :=
  let t := text.data.map (fun c => if isAsciiAlnum c then c else ' ')
  let words := (splitChar ' ' t).filter (fun w => !w.isEmpty)
  match words with
  | [] => ""
  | w :: ws => lowerAscii w ++ String.join (ws.map capitalizeWord)

/-- Dictionary key used for a truthy parameter name.  Python would key the
property dict by the raw value; string keys are kept verbatim and the other
hashable scalars are normalized to the text form the JSON writer would
output.  Unhashable names (lists, dicts) raise, which skips the
parameter. -/
def paramKey : Json → Option String
  | .str s => some s
  | .num n => some (toString n)
  | .bool true => some "True"
  | .bool false => some "False"
  | .null => some "None"
  | _ => none

/-- Python assignment of a key on a schema node (always a dict), used for
the description overwrite. -/
def jSetField (j : Json) (key : String) (v : Json) : Json :=
  match j with
  | .obj f => .obj (jSet f key v)
  | other => other

/-- Property node built for one dereferenced parameter: its schema is
converted and a truthy description overwrites the `description` entry. -/
def param_prop (fuel : Nat) (dp : Json) : Json :=
  let prop := convert_openapi_schema_to_json_schema fuel (safe_get dp "schema" (.obj []))
  let desc := safe_get dp "description" (.str "")
  if pyTruthy desc then jSetField prop "description" desc else prop

/-- Loop of `convert_parameters_to_json_schema` over the parameter list,
accumulating the `properties` dict and the `required` list. -/
def params_loop : Nat → Json → Cache → List Json → List (String × Json) → List Json → Option (List (String × Json) × List Json × Cache)
  | _, _, cache, [], props, req => some (props, req, cache)
  | fuel, spec, cache, param :: rest, props, req =>
    match dereference_object fuel spec cache param [] 0 with
    | none => none
    | some (dp, c2) =>
      let name := safe_get dp "name" (.str "")
      let preq := safe_get dp "required" (.bool false)
      if pyTruthy name then
        match paramKey name with
        | none => params_loop fuel spec c2 rest props req
        | some key =>
          let props := jSet props key (param_prop fuel dp)
          let req := if pyTruthy preq then req ++ [name] else req
          params_loop fuel spec c2 rest props req
      else params_loop fuel spec c2 rest props req

/-- The method `convert_parameters_to_json_schema(parameters)`. -/
def convert_parameters_to_json_schema (fuel : Nat) (spec : Json) (cache : Cache) (parameters : List Json) : Option (Json × Cache) :=
  if parameters.isEmpty then some (.obj [], cache)
  else
    match params_loop fuel spec cache parameters [] [] with
    | none => none
    | some (props, req, c2) =>
      if props.isEmpty then some (.obj [], c2)
      else
        some (.obj [("type", .str "object"),
                    ("properties", .obj props),
                    ("required", .arr req)], c2)

/-- First media type of the priority list that is present in a content
dict, with its value. -/
def firstPresent (cf : List (String × Json)) : List String → Option Json
  | [] => none
  | mt :: rest =>
    match jGet cf mt with
    | some mi => some mi
    | none => firstPresent cf rest

/-- Shared media-type selection of `convert_request_body_to_json_schema`
and `convert_response_to_json_schema`: try the priority list, then fall
back to the first available content type when the chosen schema is falsy.
`throw` marks the paths where the Python code raises on a non-dict
`content` (string membership leading to bad indexing, or `.keys()` on a
non-dict). -/
def pick_media_schema (prio : List String) (content : Json) : Except Unit Json :=
  match content with
  | .obj cf =>
    let schema :=
      match firstPresent cf prio with
      | some mi => safe_get mi "schema" (.obj [])
      | none => Json.obj []
    let schema :=
      if !pyTruthy schema && !cf.isEmpty then
        match cf with
        | (_, mi) :: _ => safe_get mi "schema" (.obj [])
        | [] => schema
      else schema
    .ok schema
  | .str s =>
    if prio.any (fun mt => strContains s mt) then .error ()
    else if s.isEmpty then .ok (.obj [])
    else .error ()
  | .arr items =>
    if prio.any (fun mt => items.any (fun it => jEqStr it mt)) then .error ()
    else if items.isEmpty then .ok (.obj [])
    else .error ()
  | _ => .error ()

/-- The method `convert_request_body_to_json_schema(request_body)`. -/
def convert_request_body_to_json_schema (fuel : Nat) (spec : Json) (cache : Cache) (body : Json) : Option (Json × Cache) :=
  if !pyTruthy body then some (.obj [], cache)
  else
    match dereference_object fuel spec cache body [] 0 with
    | none => none
    | some (db, c2) =>
      let content := safe_get db "content" (.obj [])
      match pick_media_schema
          ["application/json", "application/x-www-form-urlencoded", "multipart/form-data"]
          content with
      | .error _ => some (.obj [], c2)
      | .ok schema =>
        if !pyTruthy schema then some (.obj [], c2)
        else some (convert_openapi_schema_to_json_schema fuel schema, c2)

/-- The hundred status code strings "200" .. "299" scanned in ascending
order by `convert_response_to_json_schema`. -/
def statusCodes : List String := (List.range 100).map (fun i => toString (200 + i))

/-- Scan of the dereferenced responses for the first status code in
200..299 present as a key.  For a non-dict value the Python membership
test either raises directly or the subsequent indexing raises; both
surface as `throw` and are caught by the caller. -/
def scan_2xx : Json → Except Unit (Option Json)
  | .obj fields => .ok (statusCodes.findSome? (fun s => jGet fields s))
  | .arr items =>
    if statusCodes.any (fun s => items.any (fun it => jEqStr it s)) then .error ()
    else .ok none
  | .str s =>
    if statusCodes.any (fun code => strContains s code) then .error ()
    else .ok none
  | _ => .error ()

/-- The method `convert_response_to_json_schema(responses)`. -/
def convert_response_to_json_schema (fuel : Nat) (spec : Json) (cache : Cache) (responses : Json) : Option (Json × Cache) :=
  if !pyTruthy responses then some (.obj [], cache)
  else
    match dereference_object fuel spec cache responses [] 0 with
    | none => none
    | some (d, c2) =>
      match scan_2xx d with
      | .error _ => some (.obj [], c2)
      | .ok none => some (.obj [], c2)
      | .ok (some rd) =>
        if !pyTruthy rd then some (.obj [], c2)
        else
          let content := safe_get rd "content" (.obj [])
          match pick_media_schema ["application/json", "text/plain", "application/xml"] content with
          | .error _ => some (.obj [], c2)
          | .ok schema =>
            if !pyTruthy schema then some (.obj [], c2)
            else some (convert_openapi_schema_to_json_schema fuel schema, c2)

/-- The default server substituted when no server information is found. -/
def defaultServer : Json :=
  .obj [("url", .str ""),
        ("description", .str "No server information available"),
        ("variables", .obj [])]

/-- Working server list of `extract_servers` before formatting: root-level
servers, replaced by a non-empty path-level list, replaced again by a
non-empty operation-level list. -/
def server_candidates (spec pathItem operation : Json) : List Json :=
  let root :=
    match safe_get spec "servers" (.arr []) with
    | .arr l => l
    | _ => []
  let afterPath :=
    if pyTruthy pathItem && isDict pathItem then
      match safe_get pathItem "servers" (.arr []) with
      | .arr l => if l.isEmpty then root else l
      | _ => root
    else root
  if pyTruthy operation && isDict operation then
    match safe_get operation "servers" (.arr []) with
    | .arr l => if l.isEmpty then afterPath else l
    | _ => afterPath
  else afterPath

/-- Formatting loop of `extract_servers`: each candidate is dereferenced
and projected to `url` / `description` / `variables`; non-dict results are
skipped. -/
def format_servers : Nat → Json → Cache → List Json → Option (List Json × Cache)
  | _, _, cache, [] => some ([], cache)
  | fuel, spec, cache, sv :: rest =>
    match dereference_object fuel spec cache sv [] 0 with
    | none => none
    | some (ds, c2) =>
      match ds with
      | .obj _ =>
        let s := Json.obj
          [("url", safe_get ds "url" (.str "")),
           ("description", safe_get ds "description" (.str "")),
           ("variables", safe_get ds "variables" (.obj []))]
        match format_servers fuel spec c2 rest with
        | none => none
        | some (fs, c3) => some (s :: fs, c3)
      | _ => format_servers fuel spec c2 rest

/-- Base-URL override applied to one formatted server. -/
def overrideServer (bu : String) (s : Json) : Json :=
  match s with
  | .obj f =>
    .obj (jSet (jSet f "url" (.str bu)) "description"
      (.str ("Base URL override: " ++ bu)))
  | other => other

/-- The method `extract_servers(path_item, operation)`.  `baseUrl` models
`self.base_url` (`none` when the constructor received `None`); the Python
truthiness test makes an empty override string inert. -/
def extract_servers (fuel : Nat) (spec : Json) (baseUrl : Option String) (cache : Cache) (pathItem operation : Json) : Option (List Json × Cache) :=
  match format_servers fuel spec cache (server_candidates spec pathItem operation) with
  | none => none
  | some (fs, c2) =>
    let fs := if fs.isEmpty then [defaultServer] else fs
    let fs :=
      match baseUrl with
      | some bu => if bu.isEmpty then fs else fs.map (overrideServer bu)
      | none => fs
    some (fs, c2)

/-- The eight canonical HTTP verbs iterated by `extract_paths`. -/
def httpMethods : List String :=
  ["get", "post", "put", "delete", "patch", "head", "options", "trace"]

/-- Synthesized operation id used when `operationId` is absent:
the method, an underscore, and the path with slashes replaced by
underscores and braces removed. -/
def synthOperationId (method endpoint : String) : String :=
  method ++ "_" ++
    (pyReplaceChar '\x7d' ""
      (pyReplaceChar '\x7b' ""
        (pyReplaceChar '/' "_" endpoint)))

/-- Combination of path-level and operation-level parameters: path-level
first, operation-level appended after, with no deduplication. -/
def merged_parameters (pathParams : Json) (operation : Json) : List Json :=
  (match pathParams with | .arr l => l | _ => []) ++
  (match safe_get operation "parameters" (.arr []) with | .arr l => l | _ => [])

/-- Full endpoint URL: the base url with trailing slashes stripped,
prepended to the raw path template when non-empty. -/
def build_full_url (u endpoint : String) : String :=
  let base := rstripSlash u
  if !base.isEmpty then base ++ endpoint else endpoint

/-- Processing of one (endpoint, method, operation) unit inside
`extract_paths`, producing a `(path_info, path_tags)` pair.  `.error`
models an exception caught by the per-method handler (which skips the
unit): a non-string `operationId` reaching `re.search`, or a non-string
first server url reaching `.rstrip`. -/
def extract_one_operation (fuel : Nat) (spec : Json) (baseUrl : Option String) (cache : Cache) (endpoint : String) (pathItem : Json) (pathParams : Json) (method : String) (operation : Json) : Option (Except Unit (Json × Json) × Cache) :=
  let allParams := merged_parameters pathParams operation
  let opIdJ := safe_get operation "operationId" (.str (synthOperationId method endpoint))
  match opIdJ with
  | .str oid =>
    let name := if oid.data.any (fun c => !isAsciiAlnum c) then to_camel_case oid else oid
    let desc := safe_get operation "description" (safe_get operation "summary" (.str ""))
    match extract_servers fuel spec baseUrl cache pathItem operation with
    | none => none
    | some (servers, c2) =>
      let urlJ := match servers with
        | s :: _ => safe_get s "url" (.str "")
        | [] => .str ""
      match urlJ with
      | .str u =>
        let fullUrl := build_full_url u endpoint
        let reqBody := safe_get operation "requestBody" (.obj [])
        let responses := safe_get operation "responses" (.obj [])
        match convert_parameters_to_json_schema fuel spec c2 allParams with
        | none => none
        | some (pj, c3) =>
          match convert_request_body_to_json_schema fuel spec c3 reqBody with
          | none => none
          | some (bj, c4) =>
            match convert_response_to_json_schema fuel spec c4 responses with
            | none => none
            | some (rj, c5) =>
              let tags :=
                let t := safe_get operation "tags" (.arr [])
                if pyTruthy t then t else .arr [.str "untagged"]
              let info := Json.obj
                [("name", .str name),
                 ("description", desc),
                 ("method", .str (upperAscii method)),
                 ("endpoint", .str fullUrl),
                 ("headers", .arr [.obj [("name", .str "Authorization"),
                                         ("required", .bool true)]]),
                 ("parameters", pj),
                 ("body", bj),
                 ("response", rj)]
              some (.ok (info, tags), c5)
      | _ => some (.error (), c2)
  | _ => some (.error (), cache)

/-- Loop of `extract_paths` over the eight HTTP verbs of one dereferenced
path item: absent and non-dict operations are skipped, a unit whose
processing raised is skipped, successful units are collected in order. -/
def extract_methods : Nat → Json → Option String → Cache → String → List (String × Json) → Json → List String → Option (List (Json × Json) × Cache)
  | _, _, _, cache, _, _, _, [] => some ([], cache)
  | fuel, spec, baseUrl, cache, endpoint, dpiFields, pathParams, m :: rest =>
    match jGet dpiFields m with
    | some operation =>
      match operation with
      | .obj _ =>
        match extract_one_operation fuel spec baseUrl cache endpoint (.obj dpiFields) pathParams m operation with
        | none => none
        | some (.error _, c2) =>
          extract_methods fuel spec baseUrl c2 endpoint dpiFields pathParams rest
        | some (.ok entry, c2) =>
          match extract_methods fuel spec baseUrl c2 endpoint dpiFields pathParams rest with
          | none => none
          | some (L, c3) => some (entry :: L, c3)
      | _ => extract_methods fuel spec baseUrl cache endpoint dpiFields pathParams rest
    | none => extract_methods fuel spec baseUrl cache endpoint dpiFields pathParams rest

/-- Processing of one `(endpoint, path_item)` entry of the path map: the
path item is dereferenced as a whole first; a non-dict result skips the
entry. -/
def extract_path_item (fuel : Nat) (spec : Json) (baseUrl : Option String) (cache : Cache) (endpoint : String) (rawItem : Json) : Option (List (Json × Json) × Cache) :=
  match dereference_object fuel spec cache rawItem [] 0 with
  | none => none
  | some (dpi, c2) =>
    match dpi with
    | .obj dpiFields =>
      let pathParams := safe_get dpi "parameters" (.arr [])
      extract_methods fuel spec baseUrl c2 endpoint dpiFields pathParams httpMethods
    | _ => some ([], c2)

/-- Loop of `extract_paths` over the entries of the path map in document
order. -/
def extract_paths_entries : Nat → Json → Option String → Cache → List (String × Json) → Option (List (Json × Json) × Cache)
  | _, _, _, cache, [] => some ([], cache)
  | fuel, spec, baseUrl, cache, (endpoint, item) :: rest =>
    match extract_path_item fuel spec baseUrl cache endpoint item with
    | none => none
    | some (L1, c2) =>
      match extract_paths_entries fuel spec baseUrl c2 rest with
      | none => none
      | some (L2, c3) => some (L1 ++ L2, c3)

/-- The method `extract_paths()` on a fresh extractor (empty cache):
returns the list of `(path_info, path_tags)` pairs of all units that
succeeded. -/
def extract_paths (fuel : Nat) (spec : Json) (baseUrl : Option String) : Option (List (Json × Json)) :=
  match safe_get spec "paths" (.obj []) with
  | .obj entries => (extract_paths_entries fuel spec baseUrl [] entries).map Prod.fst
  | _ => some []

lemma jGet_jSet_self (f : List (String × Json)) (k : String) (v : Json) :
    jGet (jSet f k v) k = some v := by
  induction f with
  | nil => simp [jSet, jGet]
  | cons kv rest ih =>
    obtain ⟨k1, v1⟩ := kv
    by_cases h : k1 = k
    · simp [jSet, h, jGet]
    · simp [jSet, h, jGet, ih]

lemma jGet_jSet_ne (f : List (String × Json)) (k1 k2 : String) (v : Json)
    (h : k1 ≠ k2) : jGet (jSet f k1 v) k2 = jGet f k2 := by
  induction f with
  | nil => simp [jSet, jGet, h]
  | cons kv rest ih =>
    obtain ⟨ka, va⟩ := kv
    by_cases ha : ka = k1
    · subst ha
      simp [jSet, jGet, h]
    · by_cases hb : ka = k2
      · subst hb
        simp [jSet, ha, jGet]
      · simp [jSet, ha, jGet, hb, ih]

lemma jGet_mem {f : List (String × Json)} {k : String} {v : Json}
    (h : jGet f k = some v) : (k, v) ∈ f := by
  induction f with
  | nil => simp [jGet] at h
  | cons kv rest ih =>
    obtain ⟨ka, va⟩ := kv
    by_cases ha : ka = k
    · subst ha
      simp [jGet] at h
      simp [h]
    · simp [jGet, ha] at h
      exact List.mem_cons_of_mem _ (ih h)

lemma jHas_false_jGet {f : List (String × Json)} {k : String}
    (h : jHas f k = false) : jGet f k = none := by
  unfold jHas at h
  cases hg : jGet f k with
  | none => rfl
  | some v => rw [hg] at h; simp at h

/-- Unfolding of `resolve_reference` when the ref is on the active chain. -/
lemma resolve_reference_visited {fuel : Nat} {spec : Json} {c : Cache} {ref : String}
    {vis : List String} (h : vis.contains ref = true) :
    resolve_reference (fuel+1) spec c ref vis = (.ok (circularPlaceholder ref), c) := by
  have h2 : ref ∈ vis := by simpa using h
  simp [resolve_reference, h2]

/-- Unfolding of `resolve_reference` on a cache hit. -/
lemma resolve_reference_cached {fuel : Nat} {spec : Json} {c : Cache} {ref : String}
    {vis : List String} {v : Json} (h : vis.contains ref = false)
    (hc : jGet c ref = some v) :
    resolve_reference (fuel+1) spec c ref vis = (.ok v, c) := by
  have h2 : ref ∉ vis := by simpa using h
  simp [resolve_reference, h2, hc]

/-- Unfolding of `resolve_reference` on a non-internal ref: the
`ValueError` is raised before any state is touched. -/
lemma resolve_reference_noninternal {fuel : Nat} {spec : Json} {c : Cache} {ref : String}
    {vis : List String} (h : vis.contains ref = false)
    (hc : jGet c ref = none) (hi : refIsInternal ref = false) :
    resolve_reference (fuel+1) spec c ref vis = (.thrown, c) := by
  have h2 : ref ∉ vis := by simpa using h
  simp [resolve_reference, h2, hc, hi]

/-- Unfolding of `resolve_reference` when navigation fails. -/
lemma resolve_reference_notfound {fuel : Nat} {spec : Json} {c : Cache} {ref : String}
    {vis : List String} (h : vis.contains ref = false)
    (hc : jGet c ref = none) (hi : refIsInternal ref = true)
    (hw : walkPath spec (refSegments ref) = none) :
    resolve_reference (fuel+1) spec c ref vis = (.ok (unresolvedPlaceholder ref), c) := by
  have h2 : ref ∉ vis := by simpa using h
  simp [resolve_reference, h2, hc, hi, hw]

/-- Unfolding of `resolve_reference` when navigation reaches a target. -/
lemma resolve_reference_walk {fuel : Nat} {spec : Json} {c : Cache} {ref : String}
    {vis : List String} {target : Json} (h : vis.contains ref = false)
    (hc : jGet c ref = none) (hi : refIsInternal ref = true)
    (hw : walkPath spec (refSegments ref) = some target) :
    resolve_reference (fuel+1) spec c ref vis =
      (match dereference_object fuel spec c target (ref :: vis) 0 with
       | none => (.out, c)
       | some (resolved, c2) => (.ok resolved, jSet c2 ref resolved)) := by
  have h2 : ref ∉ vis := by simpa using h
  simp [resolve_reference, h2, hc, hi, hw]

/-- Dereferencing a primitive returns it unchanged. -/
lemma dereference_object_null {fuel : Nat} {spec : Json} {c : Cache} {vis : List String}
    {d : Nat} : dereference_object (fuel+1) spec c .null vis d = some (.null, c) := by
  by_cases h : d > 50 <;> simp [dereference_object, h]

lemma dereference_object_bool {fuel : Nat} {spec : Json} {c : Cache} {vis : List String}
    {d : Nat} {b : Bool} : dereference_object (fuel+1) spec c (.bool b) vis d = some (.bool b, c) := by
  by_cases h : d > 50 <;> simp [dereference_object, h]

lemma dereference_object_num {fuel : Nat} {spec : Json} {c : Cache} {vis : List String}
    {d : Nat} {n : Int} : dereference_object (fuel+1) spec c (.num n) vis d = some (.num n, c) := by
  by_cases h : d > 50 <;> simp [dereference_object, h]

lemma dereference_object_str {fuel : Nat} {spec : Json} {c : Cache} {vis : List String}
    {d : Nat} {s : String} : dereference_object (fuel+1) spec c (.str s) vis d = some (.str s, c) := by
  by_cases h : d > 50 <;> simp [dereference_object, h]

/-- Unfolding of `dereference_object` at the depth bound: the node is
returned as it is. -/
lemma dereference_object_depth {fuel : Nat} {spec : Json} {c : Cache} {o : Json}
    {vis : List String} {d : Nat} (h : d > 50) :
    dereference_object (fuel+1) spec c o vis d = some (o, c) := by
  simp [dereference_object, h]

/-- Unfolding of `dereference_object` on a dict carrying a string `$ref`. -/
lemma dereference_object_ref {fuel : Nat} {spec : Json} {c : Cache}
    {fields : List (String × Json)} {vis : List String} {d : Nat} {r : String}
    (hdep : ¬ d > 50) (href : jGet fields "$ref" = some (.str r)) :
    dereference_object (fuel+1) spec c (.obj fields) vis d =
      (match resolve_reference fuel spec c r vis with
       | (.out, _) => none
       | (.thrown, c2) => some (failedPlaceholder r, c2)
       | (.ok v, c2) => some (v, c2)) := by
  simp only [dereference_object, if_neg hdep]
  rw [href]

/-- Unfolding of `dereference_object` on a dict without `$ref`. -/
lemma dereference_object_noref {fuel : Nat} {spec : Json} {c : Cache}
    {fields : List (String × Json)} {vis : List String} {d : Nat}
    (hdep : ¬ d > 50) (href : jGet fields "$ref" = none) :
    dereference_object (fuel+1) spec c (.obj fields) vis d =
      (match dereference_fields fuel spec c fields vis d with
       | none => none
       | some (fs, c2) => some (.obj fs, c2)) := by
  simp only [dereference_object, if_neg hdep]
  rw [href]

/-- Unfolding of `dereference_object` on a list. -/
lemma dereference_object_arr {fuel : Nat} {spec : Json} {c : Cache}
    {items : List Json} {vis : List String} {d : Nat} (hdep : ¬ d > 50) :
    dereference_object (fuel+1) spec c (.arr items) vis d =
      (match dereference_items fuel spec c items vis d with
       | none => none
       | some (xs, c2) => some (.arr xs, c2)) := by
  simp only [dereference_object, if_neg hdep]

/-- Absence of `$ref` nodes anywhere in a value, with a structural fuel
bound; used only in hypotheses and discharged by evaluation on concrete
inputs. -/
def refFree : Nat → Json → Bool
  | 0, _ => false
  | fuel+1, .obj fields => !(jHas fields "$ref") && fields.all (fun kv => refFree fuel kv.2)
  | fuel+1, .arr items => items.all (fun v => refFree fuel v)
  | _+1, _ => true

lemma deref_refFree_all : ∀ fuel : Nat,
    (∀ (n : Nat) (o spec : Json) (c : Cache) (vis : List String) (d : Nat) (p : Json) (c2 : Cache),
      refFree n o = true → dereference_object fuel spec c o vis d = some (p, c2) → p = o ∧ c2 = c) ∧
    (∀ (n : Nat) (fields : List (String × Json)) (spec : Json) (c : Cache) (vis : List String) (d : Nat) (fs : List (String × Json)) (c2 : Cache),
      (∀ kv ∈ fields, refFree n kv.2 = true) → dereference_fields fuel spec c fields vis d = some (fs, c2) → fs = fields ∧ c2 = c) ∧
    (∀ (n : Nat) (items : List Json) (spec : Json) (c : Cache) (vis : List String) (d : Nat) (xs : List Json) (c2 : Cache),
      (∀ v ∈ items, refFree n v = true) → dereference_items fuel spec c items vis d = some (xs, c2) → xs = items ∧ c2 = c) := by
  intro fuel
  induction fuel with
  | zero =>
    refine ⟨?_, ?_, ?_⟩ <;> intros <;>
      simp_all [dereference_object, dereference_fields, dereference_items]
  | succ fuel ih =>
    obtain ⟨ihd, ihf, ihi⟩ := ih
    refine ⟨?_, ?_, ?_⟩
    · intro n o spec c vis d p c2 hrf hder
      match n with
      | 0 => simp [refFree] at hrf
      | n+1 =>
        by_cases hdep : d > 50
        · rw [dereference_object_depth hdep] at hder
          simp at hder
          exact ⟨hder.1.symm, hder.2.symm⟩
        · match o with
          | .null =>
            rw [dereference_object_null] at hder
            simp at hder
            exact ⟨hder.1.symm, hder.2.symm⟩
          | .bool _ =>
            rw [dereference_object_bool] at hder
            simp at hder
            exact ⟨hder.1.symm, hder.2.symm⟩
          | .num _ =>
            rw [dereference_object_num] at hder
            simp at hder
            exact ⟨hder.1.symm, hder.2.symm⟩
          | .str _ =>
            rw [dereference_object_str] at hder
            simp at hder
            exact ⟨hder.1.symm, hder.2.symm⟩
          | .obj fields =>
            simp only [refFree, Bool.and_eq_true, Bool.not_eq_true', List.all_eq_true] at hrf
            obtain ⟨hnoref, hvals⟩ := hrf
            rw [dereference_object_noref hdep (jHas_false_jGet hnoref)] at hder
            cases hdf : dereference_fields fuel spec c fields vis d with
            | none => rw [hdf] at hder; simp at hder
            | some r =>
              obtain ⟨fs, c3⟩ := r
              rw [hdf] at hder
              simp at hder
              obtain ⟨hfs, hc⟩ := ihf n fields spec c vis d fs c3 hvals hdf
              exact ⟨by rw [← hder.1, hfs], by rw [← hder.2, hc]⟩
          | .arr items =>
            simp only [refFree, List.all_eq_true] at hrf
            rw [dereference_object_arr hdep] at hder
            cases hdi : dereference_items fuel spec c items vis d with
            | none => rw [hdi] at hder; simp at hder
            | some r =>
              obtain ⟨xs, c3⟩ := r
              rw [hdi] at hder
              simp at hder
              obtain ⟨hxs, hc⟩ := ihi n items spec c vis d xs c3 hrf hdi
              exact ⟨by rw [← hder.1, hxs], by rw [← hder.2, hc]⟩
    · intro n fields spec c vis d fs c2 hvals hder
      match fields with
      | [] =>
        simp [dereference_fields] at hder
        exact ⟨hder.1, hder.2.symm⟩
      | (k, v) :: rest =>
        simp only [dereference_fields] at hder
        cases hd1 : dereference_object fuel spec c v vis (d + 1) with
        | none => rw [hd1] at hder; simp at hder
        | some r1 =>
          obtain ⟨v2, cA⟩ := r1
          rw [hd1] at hder
          simp only [] at hder
          obtain ⟨hv2, hcA⟩ := ihd n v spec c vis (d + 1) v2 cA (hvals (k, v) (by simp)) hd1
          rw [hv2, hcA] at hder
          cases hd2 : dereference_fields fuel spec c rest vis d with
          | none => rw [hd2] at hder; simp at hder
          | some r2 =>
            obtain ⟨fs2, cB⟩ := r2
            rw [hd2] at hder
            simp at hder
            obtain ⟨hfs2, hcB⟩ := ihf n rest spec c vis d fs2 cB
              (fun kv hkv => hvals kv (List.mem_cons_of_mem _ hkv)) hd2
            exact ⟨by rw [← hder.1, hfs2], by rw [← hder.2, hcB]⟩
    · intro n items spec c vis d xs c2 hvals hder
      match items with
      | [] =>
        simp [dereference_items] at hder
        exact ⟨hder.1, hder.2.symm⟩
      | v :: rest =>
        simp only [dereference_items] at hder
        cases hd1 : dereference_object fuel spec c v vis (d + 1) with
        | none => rw [hd1] at hder; simp at hder
        | some r1 =>
          obtain ⟨v2, cA⟩ := r1
          rw [hd1] at hder
          simp only [] at hder
          obtain ⟨hv2, hcA⟩ := ihd n v spec c vis (d + 1) v2 cA (hvals v (by simp)) hd1
          rw [hv2, hcA] at hder
          cases hd2 : dereference_items fuel spec c rest vis d with
          | none => rw [hd2] at hder; simp at hder
          | some r2 =>
            obtain ⟨xs2, cB⟩ := r2
            rw [hd2] at hder
            simp at hder
            obtain ⟨hxs2, hcB⟩ := ihi n rest spec c vis d xs2 cB
              (fun w hw => hvals w (List.mem_cons_of_mem _ hw)) hd2
            exact ⟨by rw [← hder.1, hxs2], by rw [← hder.2, hcB]⟩

/-- Dereferencing a value without any `$ref` returns it unchanged and
leaves the cache untouched. -/
lemma dereference_object_refFree {n fuel : Nat} {o spec : Json} {c : Cache}
    {vis : List String} {d : Nat} {p : Json} {c2 : Cache}
    (hrf : refFree n o = true)
    (hder : dereference_object fuel spec c o vis d = some (p, c2)) :
    p = o ∧ c2 = c :=
  (deref_refFree_all fuel).1 n o spec c vis d p c2 hrf hder

/-- C1: evaluation of the schema converter at the failing input
`\x7b"enum": [true, false]\x7d`.  The claim says a boolean first enum value
infers type "boolean", but in Python `bool` is a subclass of `int`, so the
`isinstance(first_val, (int, float))` branch captures booleans first and
the code infers "number"; the `isinstance(first_val, bool)` branch of the
source is unreachable. -/
theorem C1_enum_bool_infers_number :
    convert_openapi_schema_to_json_schema 2 (.obj [("enum", .arr [.bool true, .bool false])]) =
      .obj [("type", .str "number"), ("enum", .arr [.bool true, .bool false])] := rfl

/-- Document whose component `A` is a bare self reference. -/
def specSelf : Json :=
  .obj [("components", .obj [("schemas", .obj
    [("A", .obj [("$ref", .str "#/components/schemas/A")])])])]

/-- C2 counterexample: resolving `#/components/schemas/A` in a document
where `A` is a bare self reference stores the circular-reference
placeholder itself in the cache, so the cache does contain a placeholder
node after a top-level resolution. -/
theorem C2_cache_contains_placeholder :
    jGet (resolve_reference 10 specSelf [] "#/components/schemas/A" []).2
        "#/components/schemas/A" =
      some (circularPlaceholder "#/components/schemas/A") := rfl

/-- C2 (amended): a resolution that fails before dereferencing leaves the
cache unchanged, so those refs are re-attempted later: a ref already on
the active chain returns the circular placeholder and does not touch the
cache; a non-internal ref raises with the cache unchanged; a ref whose
path is not found returns the unresolved placeholder with the cache
unchanged.  (A ref whose target is found is always cached, even when the
dereferenced value is or contains a circular-reference placeholder.) -/
theorem C2_failed_resolutions_not_cached (fuel : Nat) (spec : Json) (c : Cache)
    (ref : String) (vis : List String) :
    (vis.contains ref = true →
      resolve_reference (fuel+1) spec c ref vis = (.ok (circularPlaceholder ref), c)) ∧
    (vis.contains ref = false → jGet c ref = none → refIsInternal ref = false →
      resolve_reference (fuel+1) spec c ref vis = (.thrown, c)) ∧
    (vis.contains ref = false → jGet c ref = none → refIsInternal ref = true →
      walkPath spec (refSegments ref) = none →
      resolve_reference (fuel+1) spec c ref vis = (.ok (unresolvedPlaceholder ref), c)) :=
  ⟨fun h => resolve_reference_visited h,
   fun h hc hi => resolve_reference_noninternal h hc hi,
   fun h hc hi hw => resolve_reference_notfound h hc hi hw⟩

/-- C2 amended-claim witness at concrete inputs: a circular, a
non-internal and a missing ref each leave the concrete cache unchanged. -/
theorem C2_failed_resolutions_not_cached_witness :
    resolve_reference 10 specSelf [("k", Json.null)] "#/a" ["#/a"] =
      (.ok (circularPlaceholder "#/a"), [("k", Json.null)]) ∧
    resolve_reference 10 specSelf [("k", Json.null)] "http://x" [] =
      (.thrown, [("k", Json.null)]) ∧
    resolve_reference 10 specSelf [("k", Json.null)] "#/missing" [] =
      (.ok (unresolvedPlaceholder "#/missing"), [("k", Json.null)]) :=
  ⟨(C2_failed_resolutions_not_cached 9 specSelf [("k", Json.null)] "#/a" ["#/a"]).1 rfl,
   (C2_failed_resolutions_not_cached 9 specSelf [("k", Json.null)] "http://x" []).2.1 rfl rfl rfl,
   (C2_failed_resolutions_not_cached 9 specSelf [("k", Json.null)] "#/missing" []).2.2 rfl rfl rfl rfl⟩

/-- C7: `resolve_reference` is idempotent within one run: when a top-level
call (empty chain) on ref `R` returns a node `v` and leaves the cache in
state `c2`, an immediately following top-level call on `R` returns the
structurally identical node `v` (and the same cache). -/
theorem C7_resolve_idempotent (fuel : Nat) (spec : Json) (c : Cache) (R : String)
    (v : Json) (c2 : Cache)
    (h : resolve_reference (fuel+1) spec c R [] = (.ok v, c2)) :
    resolve_reference (fuel+1) spec c2 R [] = (.ok v, c2) := by
  have hnil : ([] : List String).contains R = false := rfl
  cases hc : jGet c R with
  | some w =>
    rw [resolve_reference_cached hnil hc] at h
    have hv : w = v := by
      have := congrArg Prod.fst h
      simpa using this
    have hcc : c = c2 := by
      have := congrArg Prod.snd h
      simpa using this
    subst hv
    rw [← hcc]
    exact resolve_reference_cached hnil hc
  | none =>
    cases hi : refIsInternal R with
    | false =>
      rw [resolve_reference_noninternal hnil hc hi] at h
      have := congrArg Prod.fst h
      simp at this
    | true =>
      cases hw : walkPath spec (refSegments R) with
      | none =>
        rw [resolve_reference_notfound hnil hc hi hw] at h
        have hv : unresolvedPlaceholder R = v := by
          have := congrArg Prod.fst h
          cases this; rfl
        have hcc : c = c2 := by
          have := congrArg Prod.snd h
          simpa using this
        subst hv
        rw [← hcc]
        exact resolve_reference_notfound hnil hc hi hw
      | some target =>
        rw [resolve_reference_walk hnil hc hi hw] at h
        cases hd : dereference_object fuel spec c target (R :: []) 0 with
        | none =>
          rw [hd] at h
          have := congrArg Prod.fst h
          simp at this
        | some r =>
          obtain ⟨resolved, cD⟩ := r
          rw [hd] at h
          simp only [] at h
          have hv : resolved = v := by
            have h1 := congrArg Prod.fst h
            simp only [] at h1
            cases h1
            rfl
          have hcc : jSet cD R resolved = c2 := by
            have h2 := congrArg Prod.snd h
            simpa using h2
          have hhit : jGet c2 R = some v := by
            rw [← hcc, hv]
            exact jGet_jSet_self cD R v
          exact resolve_reference_cached hnil hhit

/-- C7 witness: after resolving the self-referential component of
`specSelf` once, a second top-level call returns the structurally
identical node. -/
theorem C7_resolve_idempotent_witness :
    resolve_reference 10 specSelf
        [("#/components/schemas/A", circularPlaceholder "#/components/schemas/A")]
        "#/components/schemas/A" [] =
      (.ok (circularPlaceholder "#/components/schemas/A"),
       [("#/components/schemas/A", circularPlaceholder "#/components/schemas/A")]) :=
  C7_resolve_idempotent 9 specSelf [] "#/components/schemas/A"
    (circularPlaceholder "#/components/schemas/A")
    [("#/components/schemas/A", circularPlaceholder "#/components/schemas/A")] rfl

/-- The converted parameter object is either exactly the empty object or
an object schema with a non-empty property map. -/
lemma convert_parameters_shape (fuel : Nat) (spec : Json) (c : Cache)
    (params : List Json) (out : Json) (c2 : Cache)
    (h : convert_parameters_to_json_schema fuel spec c params = some (out, c2)) :
    out = .obj [] ∨
      ∃ P R, out = .obj [("type", .str "object"), ("properties", .obj P), ("required", .arr R)]
        ∧ P ≠ [] := by
  unfold convert_parameters_to_json_schema at h
  by_cases hemp : params.isEmpty
  · simp only [hemp, if_true] at h
    simp at h
    exact Or.inl h.1.symm
  · simp only [hemp, if_false] at h
    cases hl : params_loop fuel spec c params [] [] with
    | none => rw [hl] at h; simp at h
    | some r =>
      obtain ⟨props, req, c3⟩ := r
      rw [hl] at h
      by_cases hp : props.isEmpty
      · simp only [hp, if_true] at h
        simp at h
        exact Or.inl h.1.symm
      · simp only [hp, if_false] at h
        simp at h
        refine Or.inr ⟨props, req, h.1.symm, ?_⟩
        intro hnil
        rw [hnil] at hp
        simp at hp

lemma extract_one_operation_ok_inv {fuel : Nat} {spec : Json} {bu : Option String} {c : Cache}
    {ep : String} {pi pp : Json} {m : String} {op : Json} {info tags : Json} {cF : Cache}
    (h : extract_one_operation fuel spec bu c ep pi pp m op = some (.ok (info, tags), cF)) :
    ∃ oid servers c2 u pj c3 bj c4 rj,
      safe_get op "operationId" (.str (synthOperationId m ep)) = .str oid ∧
      extract_servers fuel spec bu c pi op = some (servers, c2) ∧
      (match servers with
       | s :: _ => safe_get s "url" (.str "")
       | [] => (.str "" : Json)) = .str u ∧
      convert_parameters_to_json_schema fuel spec c2 (merged_parameters pp op) = some (pj, c3) ∧
      convert_request_body_to_json_schema fuel spec c3 (safe_get op "requestBody" (.obj [])) = some (bj, c4) ∧
      convert_response_to_json_schema fuel spec c4 (safe_get op "responses" (.obj [])) = some (rj, cF) ∧
      info = Json.obj
        [("name", .str (if oid.data.any (fun ch => !isAsciiAlnum ch) then to_camel_case oid else oid)),
         ("description", safe_get op "description" (safe_get op "summary" (.str ""))),
         ("method", .str (upperAscii m)),
         ("endpoint", .str (build_full_url u ep)),
         ("headers", .arr [.obj [("name", .str "Authorization"), ("required", .bool true)]]),
         ("parameters", pj),
         ("body", bj),
         ("response", rj)] := by
  simp only [extract_one_operation] at h
  split at h
  case _ oid hoid =>
    split at h
    case _ => simp at h
    case _ servers c2 hservers =>
      split at h
      case _ u hurl =>
        split at h
        case _ => simp at h
        case _ pj c3 hparams =>
          split at h
          case _ => simp at h
          case _ bj c4 hbody =>
            split at h
            case _ => simp at h
            case _ rj c5 hresp =>
              simp only [Option.some.injEq, Prod.mk.injEq, Except.ok.injEq] at h
              obtain ⟨⟨hinfo, htags⟩, hc5⟩ := h
              subst hc5
              exact ⟨oid, servers, c2, u, pj, c3, bj, c4, rj, hoid, hservers, hurl,
                hparams, hbody, hresp, hinfo.symm⟩
      case _ => simp at h
  case _ => simp at h

/-- The full URL built by `extract_paths` is unconditionally the stripped
base concatenated with the raw path: when the stripped base is empty the
guarded branch returns the raw path, which equals `"" ++ path`. -/
lemma build_full_url_eq (u p : String) : build_full_url u p = rstripSlash u ++ p := by
  unfold build_full_url
  by_cases hb : (rstripSlash u).isEmpty
  · simp only [hb, Bool.not_true, Bool.false_eq_true, if_false]
    rw [(String.isEmpty_iff _).mp hb]
    rfl
  · simp only [hb, Bool.not_false, if_true]

/-- C9: for every descriptor produced by a successful operation unit, the
endpoint field equals the first resolved server's url with trailing slash
characters stripped, concatenated with the raw path template; when that
stripped url is empty the endpoint is the raw path template unmodified. -/
theorem C9_endpoint_url {fuel : Nat} {spec : Json} {bu : Option String} {c : Cache}
    {ep : String} {pi pp : Json} {m : String} {op : Json} {info tags : Json} {cF : Cache}
    (h : extract_one_operation fuel spec bu c ep pi pp m op = some (.ok (info, tags), cF)) :
    ∃ servers c2 u,
      extract_servers fuel spec bu c pi op = some (servers, c2) ∧
      (match servers with
       | s :: _ => safe_get s "url" (.str "")
       | [] => (.str "" : Json)) = .str u ∧
      safe_get info "endpoint" .null = .str (rstripSlash u ++ ep) ∧
      (rstripSlash u = "" → safe_get info "endpoint" .null = .str ep) := by
  obtain ⟨oid, servers, c2, u, pj, c3, bj, c4, rj, hoid, hservers, hurl, hparams, hbody, hresp, hinfo⟩ :=
    extract_one_operation_ok_inv h
  refine ⟨servers, c2, u, hservers, hurl, ?_, ?_⟩
  · rw [hinfo]
    show Json.str (build_full_url u ep) = _
    rw [build_full_url_eq]
  · intro hu
    rw [hinfo]
    show Json.str (build_full_url u ep) = _
    rw [build_full_url_eq, hu]
    rfl

/-- Concrete single-operation document used by several witnesses. -/
def opW : Json := .obj [("operationId", .str "getUser")]

def piW : Json := .obj [("get", opW)]

def specW : Json := .obj [("servers", .arr [.obj [("url", .str "https://api.example.com")]])]

def infoW : Json := .obj
  [("name", .str "getUser"),
   ("description", .str ""),
   ("method", .str "GET"),
   ("endpoint", .str "https://api.example.com/v1/users/\x7bid\x7d"),
   ("headers", .arr [.obj [("name", .str "Authorization"), ("required", .bool true)]]),
   ("parameters", .obj []),
   ("body", .obj []),
   ("response", .obj [])]

/-- C9 witness: the example document with base url
`https://api.example.com` and raw path `/v1/users/\x7bid\x7d`. -/
theorem C9_endpoint_url_witness :
    ∃ servers c2 u,
      extract_servers 30 specW none [] piW opW = some (servers, c2) ∧
      (match servers with
       | s :: _ => safe_get s "url" (.str "")
       | [] => (.str "" : Json)) = .str u ∧
      safe_get infoW "endpoint" .null = .str (rstripSlash u ++ "/v1/users/\x7bid\x7d") ∧
      (rstripSlash u = "" → safe_get infoW "endpoint" .null = .str "/v1/users/\x7bid\x7d") :=
  @C9_endpoint_url 30 specW none [] "/v1/users/\x7bid\x7d" piW (.arr []) "get" opW
    infoW (.arr [.str "untagged"]) [] rfl

/-- C10: for every descriptor produced by a successful operation unit, the
`parameters` field is either exactly the empty object (no usable
parameter) or an object schema with a non-empty property map and its
`required` list; an object schema with an empty property map is never
produced. -/
theorem C10_descriptor_parameters_shape {fuel : Nat} {spec : Json} {bu : Option String}
    {c : Cache} {ep : String} {pi pp : Json} {m : String} {op : Json} {info tags : Json}
    {cF : Cache}
    (h : extract_one_operation fuel spec bu c ep pi pp m op = some (.ok (info, tags), cF)) :
    ∃ out, safe_get info "parameters" .null = out ∧
      (out = .obj [] ∨
        ∃ P R, out = .obj [("type", .str "object"), ("properties", .obj P), ("required", .arr R)]
          ∧ P ≠ []) := by
  obtain ⟨oid, servers, c2, u, pj, c3, bj, c4, rj, hoid, hservers, hurl, hparams, hbody, hresp, hinfo⟩ :=
    extract_one_operation_ok_inv h
  refine ⟨pj, ?_, convert_parameters_shape _ _ _ _ _ _ hparams⟩
  rw [hinfo]
  rfl

/-- Concrete operation with one path parameter, and its descriptor. -/
def opP : Json := .obj
  [("operationId", .str "getUser"),
   ("parameters", .arr [.obj [("name", .str "id"), ("in", .str "path"),
      ("required", .bool true), ("schema", .obj [("type", .str "string")])]])]

def infoP : Json := .obj
  [("name", .str "getUser"),
   ("description", .str ""),
   ("method", .str "GET"),
   ("endpoint", .str "/x"),
   ("headers", .arr [.obj [("name", .str "Authorization"), ("required", .bool true)]]),
   ("parameters", .obj [("type", .str "object"),
                        ("properties", .obj [("id", .obj [("type", .str "string")])]),
                        ("required", .arr [.str "id"])]),
   ("body", .obj []),
   ("response", .obj [])]

/-- C10 witness: the descriptor of a concrete operation with one named
parameter satisfies the invariant (right disjunct, non-empty property
map). -/
theorem C10_descriptor_parameters_shape_witness :
    ∃ out, safe_get infoP "parameters" .null = out ∧
      (out = .obj [] ∨
        ∃ P R, out = .obj [("type", .str "object"), ("properties", .obj P), ("required", .arr R)]
          ∧ P ≠ []) :=
  @C10_descriptor_parameters_shape 30 (.obj []) none [] "/x" (.obj [("get", opP)])
    (.arr []) "get" opP infoP (.arr [.str "untagged"]) [] rfl

lemma format_servers_mem_obj : ∀ (l : List Json) (fuel : Nat) (spec : Json) (c : Cache)
    (fs : List Json) (c2 : Cache),
    format_servers fuel spec c l = some (fs, c2) → ∀ s ∈ fs, ∃ f, s = Json.obj f := by
  intro l
  induction l with
  | nil =>
    intro fuel spec c fs c2 h s hs
    simp [format_servers] at h
    rw [h.1] at hs
    cases hs
  | cons sv rest ih =>
    intro fuel spec c fs c2 h s hs
    simp only [format_servers] at h
    cases hd : dereference_object fuel spec c sv [] 0 with
    | none => rw [hd] at h; simp at h
    | some r =>
      obtain ⟨ds, cA⟩ := r
      rw [hd] at h
      simp only [] at h
      match ds, h with
      | .null, h => exact ih fuel spec cA fs c2 h s hs
      | .bool _, h => exact ih fuel spec cA fs c2 h s hs
      | .num _, h => exact ih fuel spec cA fs c2 h s hs
      | .str _, h => exact ih fuel spec cA fs c2 h s hs
      | .arr _, h => exact ih fuel spec cA fs c2 h s hs
      | .obj g, h =>
        cases hf : format_servers fuel spec cA rest with
        | none => rw [hf] at h; simp at h
        | some r2 =>
          obtain ⟨fs2, cB⟩ := r2
          rw [hf] at h
          simp at h
          rw [← h.1] at hs
          rcases List.mem_cons.mp hs with hcase | hcase
          · exact ⟨_, hcase⟩
          · exact ih fuel spec cA fs2 cB hf s hcase

lemma overrideServer_fields (bu : String) (f : List (String × Json)) :
    safe_get (overrideServer bu (.obj f)) "url" (.str "") = .str bu ∧
    safe_get (overrideServer bu (.obj f)) "description" (.str "") =
      .str ("Base URL override: " ++ bu) := by
  constructor
  · show (jGet (jSet (jSet f "url" (Json.str bu)) "description"
        (Json.str ("Base URL override: " ++ bu))) "url").getD (Json.str "") = Json.str bu
    rw [jGet_jSet_ne _ "description" "url" _ (by decide), jGet_jSet_self]
    rfl
  · show (jGet (jSet (jSet f "url" (Json.str bu)) "description"
        (Json.str ("Base URL override: " ++ bu))) "description").getD (Json.str "") =
      Json.str ("Base URL override: " ++ bu)
    rw [jGet_jSet_self]
    rfl

/-- C5: server resolution is operation-scoped replacement, not merging.
Part one: with root servers `[R]`, an empty path-level list and an
operation-level list `[O]`, the resolved list is exactly the formatted
`[O]`, independent of `R`.  Part two: when the working list ends up empty,
exactly one placeholder server with empty url is substituted.  Part
three: a configured non-empty base-URL override forces every resolved
server's url to the override and its description to the override note. -/
theorem C5_server_resolution :
    (∀ (fuel n : Nat) (spec : Json) (c : Cache) (pathItem op R O dO : Json) (cO : Cache),
      safe_get spec "servers" (.arr []) = .arr [R] →
      pyTruthy pathItem = true → isDict pathItem = true →
      safe_get pathItem "servers" (.arr []) = .arr [] →
      pyTruthy op = true → isDict op = true →
      safe_get op "servers" (.arr []) = .arr [O] →
      refFree n O = true → isDict O = true →
      dereference_object fuel spec c O [] 0 = some (dO, cO) →
      extract_servers fuel spec none c pathItem op =
        some ([Json.obj [("url", safe_get O "url" (.str "")),
                         ("description", safe_get O "description" (.str "")),
                         ("variables", safe_get O "variables" (.obj []))]], c)) ∧
    (∀ (fuel : Nat) (spec : Json) (c : Cache) (pathItem op : Json),
      server_candidates spec pathItem op = [] →
      extract_servers fuel spec none c pathItem op = some ([defaultServer], c)) ∧
    (∀ (fuel : Nat) (spec : Json) (bu : String) (c : Cache) (pathItem op : Json)
        (L : List Json) (c2 : Cache),
      bu ≠ "" →
      extract_servers fuel spec (some bu) c pathItem op = some (L, c2) →
      ∀ s ∈ L, safe_get s "url" (.str "") = .str bu ∧
        safe_get s "description" (.str "") = .str ("Base URL override: " ++ bu)) := by
  refine ⟨?_, ?_, ?_⟩
  · intro fuel n spec c pathItem op R O dO cO hroot hpiT hpiD hpis hopT hopD hops hrf hOd hd
    have hcand : server_candidates spec pathItem op = [O] := by
      unfold server_candidates
      rw [hroot, hpis, hops]
      simp [hpiT, hpiD, hopT, hopD]
    obtain ⟨hdO, hcO⟩ := dereference_object_refFree hrf hd
    rw [hdO, hcO] at hd
    obtain ⟨f, hOf⟩ : ∃ f, O = Json.obj f := by
      cases O with
      | obj f => exact ⟨f, rfl⟩
      | null => simp [isDict] at hOd
      | bool b => simp [isDict] at hOd
      | num nv => simp [isDict] at hOd
      | str sv => simp [isDict] at hOd
      | arr xs => simp [isDict] at hOd
    unfold extract_servers
    rw [hcand]
    simp only [format_servers]
    rw [hd, hOf]
    simp [format_servers]
  · intro fuel spec c pathItem op hcand
    unfold extract_servers
    rw [hcand]
    simp [format_servers]
  · intro fuel spec bu c pathItem op L c2 hbu h s hs
    have hbue : bu.isEmpty = false := by
      cases hi : bu.isEmpty
      · rfl
      · exact absurd ((String.isEmpty_iff _).mp hi) hbu
    unfold extract_servers at h
    cases hf : format_servers fuel spec c (server_candidates spec pathItem op) with
    | none => rw [hf] at h; simp at h
    | some r =>
      obtain ⟨fs, cf⟩ := r
      rw [hf] at h
      simp only [hbue, Bool.false_eq_true, if_false] at h
      simp at h
      rw [← h.1] at hs
      obtain ⟨t, ht, hst⟩ := List.mem_map.mp hs
      have hobj : ∃ g, t = Json.obj g := by
        by_cases hemp : fs.isEmpty
        · rw [if_pos hemp] at ht
          simp at ht
          exact ⟨_, by rw [ht]; rfl⟩
        · rw [if_neg hemp] at ht
          exact format_servers_mem_obj _ fuel spec c fs cf hf t ht
      obtain ⟨g, hg⟩ := hobj
      rw [← hst, hg]
      exact overrideServer_fields bu g

/-- C5 witness: precedence with root=[R], path=[], operation=[O]; a fully
empty document giving the placeholder server; and a concrete override. -/
theorem C5_server_resolution_witness :
    extract_servers 10 (.obj [("servers", .arr [.obj [("url", .str "https://root")]])]) none []
        (.obj [("servers", .arr [])])
        (.obj [("servers", .arr [.obj [("url", .str "https://op.example")]])]) =
      some ([Json.obj [("url", .str "https://op.example"),
                       ("description", .str ""),
                       ("variables", .obj [])]], []) ∧
    extract_servers 5 (.obj []) none [] (.obj []) (.obj []) = some ([defaultServer], []) ∧
    (safe_get (Json.obj [("url", .str "https://o"),
                         ("description", .str "Base URL override: https://o"),
                         ("variables", .obj [])]) "url" (.str "") = .str "https://o" ∧
     safe_get (Json.obj [("url", .str "https://o"),
                         ("description", .str "Base URL override: https://o"),
                         ("variables", .obj [])]) "description" (.str "") =
       .str ("Base URL override: " ++ "https://o")) :=
  ⟨C5_server_resolution.1 10 3 (.obj [("servers", .arr [.obj [("url", .str "https://root")]])])
      [] (.obj [("servers", .arr [])])
      (.obj [("servers", .arr [.obj [("url", .str "https://op.example")]])])
      (.obj [("url", .str "https://root")]) (.obj [("url", .str "https://op.example")])
      (.obj [("url", .str "https://op.example")]) []
      rfl rfl rfl rfl rfl rfl rfl rfl rfl rfl,
   C5_server_resolution.2.1 5 (.obj []) [] (.obj []) (.obj []) rfl,
   C5_server_resolution.2.2 10 specW "https://o" [] (.obj []) (.obj [])
      [Json.obj [("url", .str "https://o"),
                 ("description", .str "Base URL override: https://o"),
                 ("variables", .obj [])]] []
      (by decide) rfl
      (Json.obj [("url", .str "https://o"),
                 ("description", .str "Base URL override: https://o"),
                 ("variables", .obj [])]) (by simp)⟩

lemma findSome?_range'_first (f : Nat → Option Json) :
    ∀ (len start k : Nat), start ≤ k → k < start + len →
      (∀ j, start ≤ j → j < k → f j = none) → (f k).isSome = true →
      (List.range' start len).findSome? f = f k := by
  intro len
  induction len with
  | zero =>
    intro start k h1 h2 hb hk
    omega
  | succ len ih =>
    intro start k h1 h2 hb hk
    rw [List.range'_succ, List.findSome?_cons]
    by_cases he : start = k
    · subst he
      cases hf : f start with
      | none => rw [hf] at hk; simp at hk
      | some v => simp
    · have hnone : f start = none := hb start le_rfl (by omega)
      rw [hnone]
      exact ih (start + 1) k (by omega) (by omega) (fun j hj1 hj2 => hb j (by omega) hj2) hk

lemma statusCodes_eq : statusCodes = (List.range' 200 100).map toString := by
  rw [List.range'_eq_map_range]
  simp [statusCodes, Function.comp]

/-- C4: response selection.  Part one: the scan over the dereferenced
responses returns the entry of the first status code in 200..299 present
as a key (ascending numeric order).  Parts two to five: content types are
tried in the priority order `application/json`, `text/plain`,
`application/xml`, then the first available content type.  Part six: when
no code in 200..299 is present, the resulting response schema is the
empty object. -/
theorem C4_response_selection :
    (∀ (fields : List (String × Json)) (k : Nat), 200 ≤ k → k < 300 →
      jHas fields (toString k) = true →
      (∀ j, 200 ≤ j → j < k → jHas fields (toString j) = false) →
      scan_2xx (.obj fields) = .ok (jGet fields (toString k))) ∧
    (∀ (cf : List (String × Json)) (mi : Json),
      jGet cf "application/json" = some mi →
      pyTruthy (safe_get mi "schema" (.obj [])) = true →
      pick_media_schema ["application/json", "text/plain", "application/xml"] (.obj cf) =
        .ok (safe_get mi "schema" (.obj []))) ∧
    (∀ (cf : List (String × Json)) (mi : Json),
      jGet cf "application/json" = none → jGet cf "text/plain" = some mi →
      pyTruthy (safe_get mi "schema" (.obj [])) = true →
      pick_media_schema ["application/json", "text/plain", "application/xml"] (.obj cf) =
        .ok (safe_get mi "schema" (.obj []))) ∧
    (∀ (cf : List (String × Json)) (mi : Json),
      jGet cf "application/json" = none → jGet cf "text/plain" = none →
      jGet cf "application/xml" = some mi →
      pyTruthy (safe_get mi "schema" (.obj [])) = true →
      pick_media_schema ["application/json", "text/plain", "application/xml"] (.obj cf) =
        .ok (safe_get mi "schema" (.obj []))) ∧
    (∀ (k0 : String) (mi0 : Json) (rest : List (String × Json)),
      jGet ((k0, mi0) :: rest) "application/json" = none →
      jGet ((k0, mi0) :: rest) "text/plain" = none →
      jGet ((k0, mi0) :: rest) "application/xml" = none →
      pick_media_schema ["application/json", "text/plain", "application/xml"]
          (.obj ((k0, mi0) :: rest)) =
        .ok (safe_get mi0 "schema" (.obj []))) ∧
    (∀ (fuel : Nat) (spec : Json) (c : Cache) (responses : Json)
        (f : List (String × Json)) (c1 : Cache),
      pyTruthy responses = true →
      dereference_object fuel spec c responses [] 0 = some (.obj f, c1) →
      (∀ k, 200 ≤ k → k < 300 → jHas f (toString k) = false) →
      convert_response_to_json_schema fuel spec c responses = some (.obj [], c1)) := by
  refine ⟨?_, ?_, ?_, ?_, ?_, ?_⟩
  · intro fields k h1 h2 hk hb
    show Except.ok (statusCodes.findSome? (fun s => jGet fields s)) = _
    rw [statusCodes_eq, List.findSome?_map]
    rw [show ((fun s => jGet fields s) ∘ toString) = (fun j => jGet fields (toString j)) from rfl]
    rw [findSome?_range'_first (fun j => jGet fields (toString j)) 100 200 k h1 (by omega)
      (fun j hj1 hj2 => jHas_false_jGet (hb j hj1 hj2)) ?_]
    unfold jHas at hk
    exact hk
  · intro cf mi hjson htruthy
    simp [pick_media_schema, firstPresent, hjson, htruthy]
  · intro cf mi hjson htext htruthy
    simp [pick_media_schema, firstPresent, hjson, htext, htruthy]
  · intro cf mi hjson htext hxml htruthy
    simp [pick_media_schema, firstPresent, hjson, htext, hxml, htruthy]
  · intro k0 mi0 rest hjson htext hxml
    simp [pick_media_schema, firstPresent, hjson, htext, hxml]
    intro h
    simp [pyTruthy] at h
  · intro fuel spec c responses f c1 htr hder habs
    unfold convert_response_to_json_schema
    rw [htr]
    simp only [Bool.not_true, Bool.false_eq_true, if_false]
    rw [hder]
    have hscan : scan_2xx (.obj f) = .ok none := by
      show Except.ok (statusCodes.findSome? (fun s => jGet f s)) = _
      rw [List.findSome?_eq_none_iff.mpr ?_]
      intro s hs
      rw [statusCodes_eq] at hs
      obtain ⟨j, hj, hjs⟩ := List.mem_map.mp hs
      have hjr := List.mem_range'.mp hj
      rw [← hjs]
      exact jHas_false_jGet (habs j (by omega) (by omega))
    simp [hscan]

/-- C4 witness: a responses map with only "404" and "201" selects "201";
each content-type priority case at a concrete content map; and a
responses map with no 2xx code yields the empty schema. -/
theorem C4_response_selection_witness :
    scan_2xx (.obj [("404", .obj [("d", .null)]), ("201", .obj [("desc", .null)])]) =
      .ok (some (Json.obj [("desc", Json.null)])) ∧
    pick_media_schema ["application/json", "text/plain", "application/xml"]
        (.obj [("application/json", .obj [("schema", .obj [("type", .str "number")])])]) =
      .ok (.obj [("type", .str "number")]) ∧
    pick_media_schema ["application/json", "text/plain", "application/xml"]
        (.obj [("text/plain", .obj [("schema", .obj [("type", .str "string")])])]) =
      .ok (.obj [("type", .str "string")]) ∧
    pick_media_schema ["application/json", "text/plain", "application/xml"]
        (.obj [("application/xml", .obj [("schema", .obj [("type", .str "object")])])]) =
      .ok (.obj [("type", .str "object")]) ∧
    pick_media_schema ["application/json", "text/plain", "application/xml"]
        (.obj [("text/csv", .obj [("schema", .obj [("type", .str "array")])])]) =
      .ok (.obj [("type", .str "array")]) ∧
    convert_response_to_json_schema 10 (.obj []) [] (.obj [("404", .obj [("d", .null)])]) =
      some (.obj [], []) :=
  ⟨C4_response_selection.1 [("404", .obj [("d", .null)]), ("201", .obj [("desc", .null)])] 201
      (by omega) (by omega) rfl
      (fun j h1 h2 => by
        have hj : j = 200 := by omega
        subst hj
        rfl),
   C4_response_selection.2.1 [("application/json", .obj [("schema", .obj [("type", .str "number")])])]
      (.obj [("schema", .obj [("type", .str "number")])]) rfl rfl,
   C4_response_selection.2.2.1 [("text/plain", .obj [("schema", .obj [("type", .str "string")])])]
      (.obj [("schema", .obj [("type", .str "string")])]) rfl rfl rfl,
   C4_response_selection.2.2.2.1 [("application/xml", .obj [("schema", .obj [("type", .str "object")])])]
      (.obj [("schema", .obj [("type", .str "object")])]) rfl rfl rfl rfl,
   C4_response_selection.2.2.2.2.1 "text/csv" (.obj [("schema", .obj [("type", .str "array")])]) []
      rfl rfl rfl,
   C4_response_selection.2.2.2.2.2 10 (.obj []) [] (.obj [("404", .obj [("d", .null)])])
      [("404", .obj [("d", .null)])] [] rfl rfl
      (fun k h1 h2 => by interval_cases k <;> rfl)⟩

lemma params_loop_preserves_key :
    ∀ (ps : List Json) (fuel n : Nat) (spec : Json) (c : Cache)
      (props : List (String × Json)) (req : List Json) (props2 : List (String × Json))
      (req2 : List Json) (c2 : Cache) (nm : String),
      (∀ q ∈ ps, refFree n q = true ∧
        ∃ sq, safe_get q "name" (.str "") = .str sq ∧ sq ≠ nm) →
      params_loop fuel spec c ps props req = some (props2, req2, c2) →
      jGet props2 nm = jGet props nm := by
  intro ps
  induction ps with
  | nil =>
    intro fuel n spec c props req props2 req2 c2 nm hq h
    simp [params_loop] at h
    rw [h.1]
  | cons q rest ih =>
    intro fuel n spec c props req props2 req2 c2 nm hq h
    obtain ⟨hrf, sq, hsq, hne⟩ := hq q (by simp)
    simp only [params_loop] at h
    cases hd : dereference_object fuel spec c q [] 0 with
    | none => rw [hd] at h; simp at h
    | some r =>
      obtain ⟨dq, cA⟩ := r
      rw [hd] at h
      obtain ⟨hdq, hcA⟩ := dereference_object_refFree hrf hd
      rw [hdq, hcA] at h
      simp only [hsq] at h
      by_cases hsqe : sq = ""
      · rw [hsqe] at h
        simp only [pyTruthy, String.isEmpty, Bool.not_eq_true'] at h
        simp at h
        exact ih fuel n spec c props req props2 req2 c2 nm
          (fun w hw => hq w (List.mem_cons_of_mem _ hw)) h
      · have htr : pyTruthy (.str sq) = true := by
          simp only [pyTruthy, Bool.not_eq_true']
          cases he : sq.isEmpty
          · rfl
          · exact absurd ((String.isEmpty_iff _).mp he) hsqe
        rw [htr] at h
        simp only [if_true, paramKey] at h
        have := ih fuel n spec c (jSet props sq (param_prop fuel q))
          (if pyTruthy (safe_get q "required" (.bool false)) then req ++ [Json.str sq] else req)
          props2 req2 c2 nm (fun w hw => hq w (List.mem_cons_of_mem _ hw)) h
        rw [this]
        exact jGet_jSet_ne props sq nm (param_prop fuel q) hne

/-- C8: parameters passed to schema conversion are the path-level list
first with the operation-level list appended, with no deduplication; and
in the property map built by conversion a later parameter with the same
name overwrites the earlier entry (last write wins by name), so the later
parameter's converted schema is what the resulting properties hold. -/
theorem C8_parameter_merge_last_wins :
    (∀ (pp op : Json) (l1 l2 : List Json),
      pp = .arr l1 → safe_get op "parameters" (.arr []) = .arr l2 →
      merged_parameters pp op = l1 ++ l2) ∧
    (∀ (fuel n : Nat) (spec : Json) (c : Cache) (p : Json) (ps2 : List Json)
        (props props2 : List (String × Json)) (req req2 : List Json) (c2 : Cache) (nm : String),
      refFree n p = true →
      safe_get p "name" (.str "") = .str nm → nm ≠ "" →
      (∀ q ∈ ps2, refFree n q = true ∧
        ∃ sq, safe_get q "name" (.str "") = .str sq ∧ sq ≠ nm) →
      params_loop fuel spec c (p :: ps2) props req = some (props2, req2, c2) →
      jGet props2 nm = some (param_prop fuel p)) := by
  constructor
  · intro pp op l1 l2 h1 h2
    unfold merged_parameters
    rw [h1, h2]
  · intro fuel n spec c p ps2 props props2 req req2 c2 nm hrf hnm hne hq h
    simp only [params_loop] at h
    cases hd : dereference_object fuel spec c p [] 0 with
    | none => rw [hd] at h; simp at h
    | some r =>
      obtain ⟨dp, cA⟩ := r
      rw [hd] at h
      obtain ⟨hdp, hcA⟩ := dereference_object_refFree hrf hd
      rw [hdp, hcA] at h
      simp only [hnm] at h
      have htr : pyTruthy (.str nm) = true := by
        simp only [pyTruthy, Bool.not_eq_true']
        cases he : nm.isEmpty
        · rfl
        · exact absurd ((String.isEmpty_iff _).mp he) hne
      rw [htr] at h
      simp only [if_true, paramKey] at h
      have hpres := params_loop_preserves_key ps2 fuel n spec c
        (jSet props nm (param_prop fuel p))
        (if pyTruthy (safe_get p "required" (.bool false)) then req ++ [Json.str nm] else req)
        props2 req2 c2 nm hq h
      rw [hpres]
      exact jGet_jSet_self props nm (param_prop fuel p)

/-- C8 witness: a later parameter named `id` overwrites an accumulated
`id` entry while an unrelated later parameter does not disturb it. -/
theorem C8_parameter_merge_last_wins_witness :
    merged_parameters (.arr [.obj [("name", .str "id")]] )
        (.obj [("parameters", .arr [.obj [("name", .str "x")]])]) =
      [.obj [("name", .str "id")], .obj [("name", .str "x")]] ∧
    jGet [("id", Json.obj [("type", .str "number")]),
          ("other", Json.obj [("type", .str "string")])] "id" =
      some (param_prop 10 (.obj [("name", .str "id"), ("schema", .obj [("type", .str "number")])])) :=
  ⟨C8_parameter_merge_last_wins.1 (.arr [.obj [("name", .str "id")]])
      (.obj [("parameters", .arr [.obj [("name", .str "x")]])])
      [.obj [("name", .str "id")]] [.obj [("name", .str "x")]] rfl rfl,
   C8_parameter_merge_last_wins.2 10 3 (.obj []) []
      (.obj [("name", .str "id"), ("schema", .obj [("type", .str "number")])])
      [.obj [("name", .str "other")]]
      [("id", .obj [("type", .str "string")])]
      [("id", Json.obj [("type", .str "number")]), ("other", Json.obj [("type", .str "string")])]
      [] [] [] "id" rfl rfl (by decide)
      (fun w hw => by
        simp at hw
        subst hw
        exact ⟨rfl, ⟨"other", rfl, by decide⟩⟩)
      rfl⟩

/-- C6: failure containment in `extract_paths`.  Part one: processing of a
path-map split `e1 ++ e2` is the processing of `e1` followed by the
processing of `e2` from the resulting cache, so what one entry produces
(or fails to produce) never prevents the later entries from being
processed, and the final list is the concatenation of the per-entry
successes.  Part two: an operation unit whose processing raises
contributes nothing and the remaining methods are still processed.  Part
three: a path item that does not dereference to a dict is skipped,
yielding the empty contribution.  No branch of the embedding lets an
error escape: every failure is consumed by one of these skip paths. -/
theorem C6_failure_containment :
    (∀ (fuel : Nat) (spec : Json) (bu : Option String) (c : Cache)
        (e1 e2 : List (String × Json)) (L1 : List (Json × Json)) (c1 : Cache)
        (L2 : List (Json × Json)) (c2 : Cache),
      extract_paths_entries fuel spec bu c e1 = some (L1, c1) →
      extract_paths_entries fuel spec bu c1 e2 = some (L2, c2) →
      extract_paths_entries fuel spec bu c (e1 ++ e2) = some (L1 ++ L2, c2)) ∧
    (∀ (fuel : Nat) (spec : Json) (bu : Option String) (c : Cache) (ep : String)
        (dpiFields : List (String × Json)) (pp : Json) (m : String)
        (of : List (String × Json)) (c2 : Cache) (rest : List String),
      jGet dpiFields m = some (.obj of) →
      extract_one_operation fuel spec bu c ep (.obj dpiFields) pp m (.obj of) =
        some (.error (), c2) →
      extract_methods fuel spec bu c ep dpiFields pp (m :: rest) =
        extract_methods fuel spec bu c2 ep dpiFields pp rest) ∧
    (∀ (fuel : Nat) (spec : Json) (bu : Option String) (c : Cache) (ep : String)
        (rawItem dpi : Json) (c2 : Cache),
      dereference_object fuel spec c rawItem [] 0 = some (dpi, c2) →
      isDict dpi = false →
      extract_path_item fuel spec bu c ep rawItem = some ([], c2)) := by
  refine ⟨?_, ?_, ?_⟩
  · intro fuel spec bu c e1
    induction e1 generalizing c with
    | nil =>
      intro e2 L1 c1 L2 c2 h1 h2
      simp [extract_paths_entries] at h1
      rw [h1.1, h1.2]
      simpa using h2
    | cons hd rest ih =>
      intro e2 L1 c1 L2 c2 h1 h2
      obtain ⟨ep, item⟩ := hd
      simp only [extract_paths_entries, List.cons_append] at h1
      cases hp : extract_path_item fuel spec bu c ep item with
      | none => rw [hp] at h1; simp at h1
      | some r =>
        obtain ⟨La, cA⟩ := r
        rw [hp] at h1
        simp only [] at h1
        cases hr : extract_paths_entries fuel spec bu cA rest with
        | none => rw [hr] at h1; simp at h1
        | some r2 =>
          obtain ⟨Lb, cB⟩ := r2
          rw [hr] at h1
          simp at h1
          rw [← h1.2] at h2
          have hIH := ih cA e2 Lb cB L2 c2 hr h2
          show (match extract_path_item fuel spec bu c ep item with
                | none => none
                | some (La2, cA2) =>
                  match extract_paths_entries fuel spec bu cA2 (rest ++ e2) with
                  | none => none
                  | some (Lb2, cB2) => some (La2 ++ Lb2, cB2)) = some (L1 ++ L2, c2)
          rw [hp]
          show (match extract_paths_entries fuel spec bu cA (rest ++ e2) with
                | none => none
                | some (Lb2, cB2) => some (La ++ Lb2, cB2)) = some (L1 ++ L2, c2)
          rw [hIH]
          show some (La ++ (Lb ++ L2), c2) = some (L1 ++ L2, c2)
          rw [← h1.1, List.append_assoc]
  · intro fuel spec bu c ep dpiFields pp m of c2 rest hget herr
    simp only [extract_methods]
    rw [hget]
    simp only [herr]
  · intro fuel spec bu c ep rawItem dpi c2 hder hdict
    simp only [extract_path_item]
    rw [hder]
    match dpi, hdict with
    | .null, _ => rfl
    | .bool _, _ => rfl
    | .num _, _ => rfl
    | .str _, _ => rfl
    | .arr _, _ => rfl

/-- Operation whose `operationId` is a number: `re.search` raises on it,
so the unit fails; and a path item wrapping it. -/
def opBad : Json := .obj [("operationId", .num 5)]

def piBad : Json := .obj [("get", opBad)]

def infoA : Json := .obj
  [("name", .str "getUser"),
   ("description", .str ""),
   ("method", .str "GET"),
   ("endpoint", .str "/a"),
   ("headers", .arr [.obj [("name", .str "Authorization"), ("required", .bool true)]]),
   ("parameters", .obj []),
   ("body", .obj []),
   ("response", .obj [])]

/-- C6 witness: a good path followed by a poisoned path yields exactly
the good descriptor; a raising operation unit is skipped in place; a
non-dict path item contributes nothing. -/
theorem C6_failure_containment_witness :
    extract_paths_entries 40 (.obj []) none [] ([("/a", piW)] ++ [("/bad", piBad)]) =
      some ([(infoA, .arr [.str "untagged"])] ++ [], []) ∧
    extract_methods 40 (.obj []) none [] "/bad" [("get", opBad)] (.arr []) ("get" :: ["post"]) =
      extract_methods 40 (.obj []) none [] "/bad" [("get", opBad)] (.arr []) ["post"] ∧
    extract_path_item 10 (.obj []) none [] "/x" (.str "untyped") = some ([], []) :=
  ⟨C6_failure_containment.1 40 (.obj []) none [] [("/a", piW)] [("/bad", piBad)]
      [(infoA, .arr [.str "untagged"])] [] [] [] rfl rfl,
   C6_failure_containment.2.1 40 (.obj []) none [] "/bad" [("get", opBad)] (.arr []) "get"
      [("operationId", .num 5)] [] ["post"] rfl rfl,
   C6_failure_containment.2.2 10 (.obj []) none [] "/x" (.str "untyped") (.str "untyped") []
      rfl rfl⟩

/-- Unfolding of `dereference_object` on a dict whose `$ref` value is not
a string (the raised error is caught and replaced by a placeholder). -/
lemma dereference_object_ref_other {fuel : Nat} {spec : Json} {c : Cache}
    {fields : List (String × Json)} {vis : List String} {d : Nat} {other : Json}
    (hdep : ¬ d > 50) (hg : jGet fields "$ref" = some other)
    (hns : ∀ r, other ≠ Json.str r) :
    dereference_object (fuel+1) spec c (.obj fields) vis d =
      some (failedPlaceholder (refValueText other), c) := by
  simp only [dereference_object, if_neg hdep]
  rw [hg]
  match other, hns with
  | .null, _ => rfl
  | .bool _, _ => rfl
  | .num _, _ => rfl
  | .arr _, _ => rfl
  | .obj _, _ => rfl
  | .str r, hns => exact absurd rfl (hns r)

/-- Fuel-exhaustion marker of a `resolve_reference` outcome. -/
def RRes.isOut : RRes → Bool
  | .out => true
  | _ => false

lemma resolve_deref_mono : ∀ fuel : Nat,
    (∀ (spec : Json) (c : Cache) (ref : String) (vis : List String),
      (resolve_reference fuel spec c ref vis).1.isOut = false →
      resolve_reference (fuel+1) spec c ref vis = resolve_reference fuel spec c ref vis) ∧
    (∀ (spec : Json) (c : Cache) (o : Json) (vis : List String) (d : Nat),
      (dereference_object fuel spec c o vis d).isSome = true →
      dereference_object (fuel+1) spec c o vis d = dereference_object fuel spec c o vis d) ∧
    (∀ (spec : Json) (c : Cache) (fields : List (String × Json)) (vis : List String) (d : Nat),
      (dereference_fields fuel spec c fields vis d).isSome = true →
      dereference_fields (fuel+1) spec c fields vis d = dereference_fields fuel spec c fields vis d) ∧
    (∀ (spec : Json) (c : Cache) (items : List Json) (vis : List String) (d : Nat),
      (dereference_items fuel spec c items vis d).isSome = true →
      dereference_items (fuel+1) spec c items vis d = dereference_items fuel spec c items vis d) := by
  intro fuel
  induction fuel with
  | zero =>
    refine ⟨?_, ?_, ?_, ?_⟩ <;> intros <;>
      simp_all [resolve_reference, dereference_object, dereference_fields,
        dereference_items, RRes.isOut]
  | succ fuel ih =>
    obtain ⟨ihr, ihd, ihf, ihi⟩ := ih
    refine ⟨?_, ?_, ?_, ?_⟩
    · intro spec c ref vis h
      cases hv : vis.contains ref with
      | true =>
        rw [@resolve_reference_visited (fuel+1) spec c ref vis hv,
            @resolve_reference_visited fuel spec c ref vis hv]
      | false =>
        cases hc : jGet c ref with
        | some v =>
          rw [@resolve_reference_cached (fuel+1) spec c ref vis v hv hc,
              @resolve_reference_cached fuel spec c ref vis v hv hc]
        | none =>
          cases hi : refIsInternal ref with
          | false =>
            rw [@resolve_reference_noninternal (fuel+1) spec c ref vis hv hc hi,
                @resolve_reference_noninternal fuel spec c ref vis hv hc hi]
          | true =>
            cases hw : walkPath spec (refSegments ref) with
            | none =>
              rw [@resolve_reference_notfound (fuel+1) spec c ref vis hv hc hi hw,
                  @resolve_reference_notfound fuel spec c ref vis hv hc hi hw]
            | some target =>
              rw [@resolve_reference_walk (fuel+1) spec c ref vis target hv hc hi hw,
                  @resolve_reference_walk fuel spec c ref vis target hv hc hi hw]
              rw [@resolve_reference_walk fuel spec c ref vis target hv hc hi hw] at h
              cases hd : dereference_object fuel spec c target (ref :: vis) 0 with
              | none => rw [hd] at h; simp [RRes.isOut] at h
              | some r =>
                obtain ⟨res, c2⟩ := r
                have hsome : (dereference_object fuel spec c target (ref :: vis) 0).isSome = true := by
                  rw [hd]; rfl
                rw [ihd spec c target (ref :: vis) 0 hsome, hd]
    · intro spec c o vis d h
      by_cases hdep : d > 50
      · rw [dereference_object_depth hdep, dereference_object_depth hdep]
      · match o with
        | .null => rw [dereference_object_null, dereference_object_null]
        | .bool _ => rw [dereference_object_bool, dereference_object_bool]
        | .num _ => rw [dereference_object_num, dereference_object_num]
        | .str _ => rw [dereference_object_str, dereference_object_str]
        | .obj fields =>
          cases hg : jGet fields "$ref" with
          | some rv =>
            match rv with
            | .str r =>
              rw [@dereference_object_ref (fuel+1) spec c fields vis d r hdep hg,
                  @dereference_object_ref fuel spec c fields vis d r hdep hg]
              rw [@dereference_object_ref fuel spec c fields vis d r hdep hg] at h
              cases hr : resolve_reference fuel spec c r vis with
              | mk r1 c1 =>
                rw [hr] at h
                cases r1 with
                | out => simp at h
                | thrown =>
                  have hno : (resolve_reference fuel spec c r vis).1.isOut = false := by
                    rw [hr]; rfl
                  rw [ihr spec c r vis hno, hr]
                | ok v =>
                  have hno : (resolve_reference fuel spec c r vis).1.isOut = false := by
                    rw [hr]; rfl
                  rw [ihr spec c r vis hno, hr]
            | .null =>
              rw [dereference_object_ref_other hdep hg (by intro r hcon; cases hcon),
                  dereference_object_ref_other hdep hg (by intro r hcon; cases hcon)]
            | .bool b =>
              rw [dereference_object_ref_other hdep hg (by intro r hcon; cases hcon),
                  dereference_object_ref_other hdep hg (by intro r hcon; cases hcon)]
            | .num nv =>
              rw [dereference_object_ref_other hdep hg (by intro r hcon; cases hcon),
                  dereference_object_ref_other hdep hg (by intro r hcon; cases hcon)]
            | .arr xs =>
              rw [dereference_object_ref_other hdep hg (by intro r hcon; cases hcon),
                  dereference_object_ref_other hdep hg (by intro r hcon; cases hcon)]
            | .obj fs =>
              rw [dereference_object_ref_other hdep hg (by intro r hcon; cases hcon),
                  dereference_object_ref_other hdep hg (by intro r hcon; cases hcon)]
          | none =>
            rw [@dereference_object_noref (fuel+1) spec c fields vis d hdep hg,
                @dereference_object_noref fuel spec c fields vis d hdep hg]
            rw [@dereference_object_noref fuel spec c fields vis d hdep hg] at h
            cases hf : dereference_fields fuel spec c fields vis d with
            | none => rw [hf] at h; simp at h
            | some r =>
              have hsome : (dereference_fields fuel spec c fields vis d).isSome = true := by
                rw [hf]; rfl
              rw [ihf spec c fields vis d hsome, hf]
        | .arr items =>
          rw [@dereference_object_arr (fuel+1) spec c items vis d hdep,
              @dereference_object_arr fuel spec c items vis d hdep]
          rw [@dereference_object_arr fuel spec c items vis d hdep] at h
          cases hitems : dereference_items fuel spec c items vis d with
          | none => rw [hitems] at h; simp at h
          | some r =>
            have hsome : (dereference_items fuel spec c items vis d).isSome = true := by
              rw [hitems]; rfl
            rw [ihi spec c items vis d hsome, hitems]
    · intro spec c fields vis d h
      match fields with
      | [] => rfl
      | (k, v) :: rest =>
        simp only [dereference_fields] at h ⊢
        cases hd : dereference_object fuel spec c v vis (d + 1) with
        | none => rw [hd] at h; simp at h
        | some r =>
          obtain ⟨v2, c2⟩ := r
          have hsome : (dereference_object fuel spec c v vis (d + 1)).isSome = true := by
            rw [hd]; rfl
          rw [ihd spec c v vis (d + 1) hsome, hd]
          rw [hd] at h
          simp only [] at h
          cases hf : dereference_fields fuel spec c2 rest vis d with
          | none => rw [hf] at h; simp at h
          | some r2 =>
            have hsome2 : (dereference_fields fuel spec c2 rest vis d).isSome = true := by
              rw [hf]; rfl
            show (match dereference_fields (fuel+1) spec c2 rest vis d with
                  | none => none
                  | some (fs, c3) => some ((k, v2) :: fs, c3)) =
                 (match dereference_fields fuel spec c2 rest vis d with
                  | none => none
                  | some (fs, c3) => some ((k, v2) :: fs, c3))
            rw [ihf spec c2 rest vis d hsome2]
    · intro spec c items vis d h
      match items with
      | [] => rfl
      | v :: rest =>
        simp only [dereference_items] at h ⊢
        cases hd : dereference_object fuel spec c v vis (d + 1) with
        | none => rw [hd] at h; simp at h
        | some r =>
          obtain ⟨v2, c2⟩ := r
          have hsome : (dereference_object fuel spec c v vis (d + 1)).isSome = true := by
            rw [hd]; rfl
          rw [ihd spec c v vis (d + 1) hsome, hd]
          rw [hd] at h
          simp only [] at h
          cases hi2 : dereference_items fuel spec c2 rest vis d with
          | none => rw [hi2] at h; simp at h
          | some r2 =>
            have hsome2 : (dereference_items fuel spec c2 rest vis d).isSome = true := by
              rw [hi2]; rfl
            show (match dereference_items (fuel+1) spec c2 rest vis d with
                  | none => none
                  | some (xs, c3) => some (v2 :: xs, c3)) =
                 (match dereference_items fuel spec c2 rest vis d with
                  | none => none
                  | some (xs, c3) => some (v2 :: xs, c3))
            rw [ihi spec c2 rest vis d hsome2]

lemma dereference_object_mono_le {fuel fuel2 : Nat} (hle : fuel ≤ fuel2)
    {spec : Json} {c : Cache} {o : Json} {vis : List String} {d : Nat}
    (h : (dereference_object fuel spec c o vis d).isSome = true) :
    dereference_object fuel2 spec c o vis d = dereference_object fuel spec c o vis d := by
  induction fuel2, hle using Nat.le_induction with
  | base => rfl
  | succ n hn ih =>
    rw [(resolve_deref_mono n).2.1 spec c o vis d (by rw [ih]; exact h), ih]

lemma dereference_fields_mono_le {fuel fuel2 : Nat} (hle : fuel ≤ fuel2)
    {spec : Json} {c : Cache} {fields : List (String × Json)} {vis : List String} {d : Nat}
    (h : (dereference_fields fuel spec c fields vis d).isSome = true) :
    dereference_fields fuel2 spec c fields vis d = dereference_fields fuel spec c fields vis d := by
  induction fuel2, hle using Nat.le_induction with
  | base => rfl
  | succ n hn ih =>
    rw [(resolve_deref_mono n).2.2.1 spec c fields vis d (by rw [ih]; exact h), ih]

lemma dereference_items_mono_le {fuel fuel2 : Nat} (hle : fuel ≤ fuel2)
    {spec : Json} {c : Cache} {items : List Json} {vis : List String} {d : Nat}
    (h : (dereference_items fuel spec c items vis d).isSome = true) :
    dereference_items fuel2 spec c items vis d = dereference_items fuel spec c items vis d := by
  induction fuel2, hle using Nat.le_induction with
  | base => rfl
  | succ n hn ih =>
    rw [(resolve_deref_mono n).2.2.2 spec c items vis d (by rw [ih]; exact h), ih]

mutual

/-- All strings that occur as the value of a `$ref` key anywhere in a
value: the only strings that resolution can add to the active chain. -/
def refStrings : Json → Finset String
  | .obj fields => refStringsF fields
  | .arr items => refStringsI items
  | _ => ∅

def refStringsF : List (String × Json) → Finset String
  | [] => ∅
  | (k, v) :: rest =>
    (if k = "$ref" then (match v with | .str r => {r} | _ => ∅) else ∅) ∪
      refStrings v ∪ refStringsF rest

def refStringsI : List Json → Finset String
  | [] => ∅
  | v :: rest => refStrings v ∪ refStringsI rest

end

lemma refStringsF_cons (k : String) (v : Json) (rest : List (String × Json)) :
    refStringsF ((k, v) :: rest) =
      (if k = "$ref" then (match v with | .str r => ({r} : Finset String) | _ => ∅) else ∅) ∪
        refStrings v ∪ refStringsF rest := rfl

lemma refStringsF_get_ref {fields : List (String × Json)} {r : String}
    (h : jGet fields "$ref" = some (.str r)) : r ∈ refStringsF fields := by
  induction fields with
  | nil => simp [jGet] at h
  | cons kv rest ih =>
    obtain ⟨k, v⟩ := kv
    by_cases hk : k = "$ref"
    · subst hk
      simp [jGet] at h
      rw [h]
      simp [refStringsF]
    · simp [jGet, hk] at h
      simp [refStringsF, ih h]

lemma refStrings_field_subset {fields : List (String × Json)} {k : String} {v : Json}
    (h : (k, v) ∈ fields) : refStrings v ⊆ refStringsF fields := by
  induction fields with
  | nil => cases h
  | cons kv rest ih =>
    obtain ⟨k2, v2⟩ := kv
    rcases List.mem_cons.mp h with hcase | hcase
    · have hv : v = v2 := by
        have := congrArg Prod.snd hcase
        simpa using this
      rw [refStringsF_cons, ← hv]
      intro x hx
      exact Finset.mem_union.mpr (Or.inl (Finset.mem_union.mpr (Or.inr hx)))
    · rw [refStringsF_cons]
      intro x hx
      exact Finset.mem_union.mpr (Or.inr (ih hcase hx))

lemma refStrings_item_subset {items : List Json} {v : Json}
    (h : v ∈ items) : refStrings v ⊆ refStringsI items := by
  induction items with
  | nil => cases h
  | cons w rest ih =>
    rcases List.mem_cons.mp h with hcase | hcase
    · rw [refStringsI, hcase]
      exact Finset.subset_union_left
    · rw [refStringsI]
      exact subset_trans (ih hcase) Finset.subset_union_right

lemma walkPath_refStrings : ∀ (parts : List String) (spec t : Json),
    walkPath spec parts = some t → refStrings t ⊆ refStrings spec := by
  intro parts
  induction parts with
  | nil =>
    intro spec t h
    simp [walkPath] at h
    rw [h]
  | cons part rest ih =>
    intro spec t h
    simp only [walkPath] at h
    match spec, h with
    | .obj fields, h =>
      simp only [] at h
      cases hg : jGet fields part with
      | none => rw [hg] at h; simp at h
      | some next =>
        rw [hg] at h
        simp only [] at h
        exact subset_trans (ih next t h) (refStrings_field_subset (jGet_mem hg))

lemma sizeOf_lt_of_mem_fields {fields : List (String × Json)} {k : String} {v : Json}
    (h : (k, v) ∈ fields) : sizeOf v < sizeOf (Json.obj fields) := by
  induction fields with
  | nil => cases h
  | cons hd tl ih =>
    rcases List.mem_cons.mp h with hcase | hcase
    · subst hcase
      simp [Json.obj.sizeOf_spec]
      omega
    · have := ih hcase
      simp [Json.obj.sizeOf_spec] at this ⊢
      omega

lemma sizeOf_lt_of_mem_items {items : List Json} {v : Json}
    (h : v ∈ items) : sizeOf v < sizeOf (Json.arr items) := by
  induction items with
  | nil => cases h
  | cons hd tl ih =>
    rcases List.mem_cons.mp h with hcase | hcase
    · subst hcase
      simp [Json.arr.sizeOf_spec]
      omega
    · have := ih hcase
      simp [Json.arr.sizeOf_spec] at this ⊢
      omega

lemma dereference_fields_exists {spec : Json} (fields : List (String × Json))
    (vis : List String) (d : Nat)
    (hvals : ∀ kv ∈ fields, ∀ (c' : Cache),
      ∃ fuel, (dereference_object fuel spec c' kv.2 vis (d+1)).isSome = true) :
    ∀ (c : Cache), ∃ fuel, (dereference_fields fuel spec c fields vis d).isSome = true := by
  induction fields with
  | nil => exact fun c => ⟨1, rfl⟩
  | cons kv rest ih =>
    intro c
    obtain ⟨k, v⟩ := kv
    obtain ⟨f1, h1⟩ := hvals (k, v) (by simp) c
    cases hd : dereference_object f1 spec c v vis (d+1) with
    | none => rw [hd] at h1; simp at h1
    | some r =>
      obtain ⟨v2, c2⟩ := r
      obtain ⟨f2, h2⟩ := ih (fun kv hkv => hvals kv (List.mem_cons_of_mem _ hkv)) c2
      refine ⟨max f1 f2 + 1, ?_⟩
      have hd2 : dereference_object (max f1 f2) spec c v vis (d+1) = some (v2, c2) := by
        rw [dereference_object_mono_le (le_max_left f1 f2) (by rw [hd]; rfl), hd]
      have h3 : dereference_fields (max f1 f2) spec c2 rest vis d =
          dereference_fields f2 spec c2 rest vis d :=
        dereference_fields_mono_le (le_max_right f1 f2) h2
      simp only [dereference_fields]
      rw [hd2]
      show (match dereference_fields (max f1 f2) spec c2 rest vis d with
            | none => none
            | some (fs, c3) => some ((k, v2) :: fs, c3)).isSome = true
      rw [h3]
      cases hf : dereference_fields f2 spec c2 rest vis d with
      | none => rw [hf] at h2; simp at h2
      | some r2 => rfl

lemma dereference_items_exists {spec : Json} (items : List Json)
    (vis : List String) (d : Nat)
    (hvals : ∀ v ∈ items, ∀ (c' : Cache),
      ∃ fuel, (dereference_object fuel spec c' v vis (d+1)).isSome = true) :
    ∀ (c : Cache), ∃ fuel, (dereference_items fuel spec c items vis d).isSome = true := by
  induction items with
  | nil => exact fun c => ⟨1, rfl⟩
  | cons v rest ih =>
    intro c
    obtain ⟨f1, h1⟩ := hvals v (by simp) c
    cases hd : dereference_object f1 spec c v vis (d+1) with
    | none => rw [hd] at h1; simp at h1
    | some r =>
      obtain ⟨v2, c2⟩ := r
      obtain ⟨f2, h2⟩ := ih (fun w hw => hvals w (List.mem_cons_of_mem _ hw)) c2
      refine ⟨max f1 f2 + 1, ?_⟩
      have hd2 : dereference_object (max f1 f2) spec c v vis (d+1) = some (v2, c2) := by
        rw [dereference_object_mono_le (le_max_left f1 f2) (by rw [hd]; rfl), hd]
      have h3 : dereference_items (max f1 f2) spec c2 rest vis d =
          dereference_items f2 spec c2 rest vis d :=
        dereference_items_mono_le (le_max_right f1 f2) h2
      simp only [dereference_items]
      rw [hd2]
      show (match dereference_items (max f1 f2) spec c2 rest vis d with
            | none => none
            | some (xs, c3) => some (v2 :: xs, c3)).isSome = true
      rw [h3]
      cases hf : dereference_items f2 spec c2 rest vis d with
      | none => rw [hf] at h2; simp at h2
      | some r2 => rfl

lemma refStrings_obj (fields : List (String × Json)) :
    refStrings (.obj fields) = refStringsF fields := by
  rw [refStrings]

lemma refStrings_arr (items : List Json) :
    refStrings (.arr items) = refStringsI items := by
  rw [refStrings]

theorem resolve_deref_exists : ∀ (n : Nat) (spec : Json),
    (∀ (c : Cache) (ref : String) (vis : List String),
      ((insert ref (refStrings spec)) \ vis.toFinset).card ≤ n →
      ∃ fuel, (resolve_reference fuel spec c ref vis).1.isOut = false) ∧
    (∀ (m : Nat) (o : Json), sizeOf o ≤ m → ∀ (c : Cache) (vis : List String) (d : Nat),
      ((refStrings spec ∪ refStrings o) \ vis.toFinset).card ≤ n →
      ∃ fuel, (dereference_object fuel spec c o vis d).isSome = true) := by
  intro n
  induction n using Nat.strong_induction_on with
  | _ n ih =>
    intro spec
    have hres : ∀ (c : Cache) (ref : String) (vis : List String),
        ((insert ref (refStrings spec)) \ vis.toFinset).card ≤ n →
        ∃ fuel, (resolve_reference fuel spec c ref vis).1.isOut = false := by
      intro c ref vis hcard
      cases hv : vis.contains ref with
      | true => exact ⟨1, by rw [resolve_reference_visited hv]; rfl⟩
      | false =>
        cases hc : jGet c ref with
        | some v => exact ⟨1, by rw [resolve_reference_cached hv hc]; rfl⟩
        | none =>
          cases hi : refIsInternal ref with
          | false => exact ⟨1, by rw [resolve_reference_noninternal hv hc hi]; rfl⟩
          | true =>
            cases hw : walkPath spec (refSegments ref) with
            | none => exact ⟨1, by rw [resolve_reference_notfound hv hc hi hw]; rfl⟩
            | some target =>
              have hsub := walkPath_refStrings _ spec target hw
              have hrefvis : ref ∉ vis.toFinset := by
                simp only [List.mem_toFinset]
                simpa using hv
              have hrefS : ref ∈ (insert ref (refStrings spec)) \ vis.toFinset := by
                simp [hrefvis]
              have hlt : ((refStrings spec ∪ refStrings target) \ (ref :: vis).toFinset).card <
                  ((insert ref (refStrings spec)) \ vis.toFinset).card := by
                have hsubset : (refStrings spec ∪ refStrings target) \ (ref :: vis).toFinset ⊆
                    ((insert ref (refStrings spec)) \ vis.toFinset).erase ref := by
                  intro x hx
                  simp only [Finset.mem_sdiff, Finset.mem_union, List.toFinset_cons,
                    Finset.mem_insert, not_or, Finset.mem_erase] at hx ⊢
                  obtain ⟨hx1, hx2, hx3⟩ := hx
                  refine ⟨hx2, ?_, hx3⟩
                  rcases hx1 with hA | hT
                  · exact Or.inr hA
                  · exact Or.inr (hsub hT)
                have h2 := Finset.card_le_card hsubset
                have h3 := Finset.card_erase_lt_of_mem hrefS
                omega
              obtain ⟨fuel, hf⟩ := ((ih _ (lt_of_lt_of_le hlt hcard)) spec).2
                (sizeOf target) target le_rfl c (ref :: vis) 0 le_rfl
              refine ⟨fuel + 1, ?_⟩
              rw [resolve_reference_walk hv hc hi hw]
              cases hd : dereference_object fuel spec c target (ref :: vis) 0 with
              | none => rw [hd] at hf; simp at hf
              | some r =>
                obtain ⟨res, c2⟩ := r
                rfl
    have hder : ∀ (m : Nat) (o : Json), sizeOf o ≤ m →
        ∀ (c : Cache) (vis : List String) (d : Nat),
        ((refStrings spec ∪ refStrings o) \ vis.toFinset).card ≤ n →
        ∃ fuel, (dereference_object fuel spec c o vis d).isSome = true := by
      intro m
      induction m with
      | zero =>
        intro o hsz
        exact absurd hsz (by cases o <;> simp)
      | succ m ihm =>
        intro o hsz c vis d hcard
        by_cases hdep : d > 50
        · exact ⟨1, by rw [dereference_object_depth hdep]; rfl⟩
        · match o, hsz, hcard with
          | .null, _, _ => exact ⟨1, by rw [dereference_object_null]; rfl⟩
          | .bool b, _, _ => exact ⟨1, by rw [dereference_object_bool]; rfl⟩
          | .num nv, _, _ => exact ⟨1, by rw [dereference_object_num]; rfl⟩
          | .str sv, _, _ => exact ⟨1, by rw [dereference_object_str]; rfl⟩
          | .obj fields, hsz, hcard =>
            rw [refStrings_obj] at hcard
            cases hg : jGet fields "$ref" with
            | some rv =>
              match rv with
              | .str r =>
                have hrmem : r ∈ refStringsF fields := refStringsF_get_ref hg
                have hcard2 : ((insert r (refStrings spec)) \ vis.toFinset).card ≤ n := by
                  refine le_trans (Finset.card_le_card ?_) hcard
                  intro x hx
                  simp only [Finset.mem_sdiff, Finset.mem_insert, Finset.mem_union] at hx ⊢
                  obtain ⟨hx1, hx2⟩ := hx
                  refine ⟨?_, hx2⟩
                  rcases hx1 with hxr | hxA
                  · subst hxr
                    exact Or.inr hrmem
                  · exact Or.inl hxA
                obtain ⟨fuel, hf⟩ := hres c r vis hcard2
                refine ⟨fuel + 1, ?_⟩
                rw [dereference_object_ref hdep hg]
                cases hr : resolve_reference fuel spec c r vis with
                | mk r1 c1 =>
                  rw [hr] at hf
                  cases r1 with
                  | out => simp [RRes.isOut] at hf
                  | thrown => rfl
                  | ok v => rfl
              | .null =>
                exact ⟨1, by
                  rw [dereference_object_ref_other hdep hg (by intro r hcon; cases hcon)]; rfl⟩
              | .bool b2 =>
                exact ⟨1, by
                  rw [dereference_object_ref_other hdep hg (by intro r hcon; cases hcon)]; rfl⟩
              | .num n2 =>
                exact ⟨1, by
                  rw [dereference_object_ref_other hdep hg (by intro r hcon; cases hcon)]; rfl⟩
              | .arr xs2 =>
                exact ⟨1, by
                  rw [dereference_object_ref_other hdep hg (by intro r hcon; cases hcon)]; rfl⟩
              | .obj fs2 =>
                exact ⟨1, by
                  rw [dereference_object_ref_other hdep hg (by intro r hcon; cases hcon)]; rfl⟩
            | none =>
              have hvals : ∀ kv ∈ fields, ∀ (c' : Cache),
                  ∃ fuel, (dereference_object fuel spec c' kv.2 vis (d+1)).isSome = true := by
                intro kv hkv c'
                have hkv2 : (kv.1, kv.2) ∈ fields := by simpa using hkv
                refine ihm kv.2 ?_ c' vis (d+1) ?_
                · have := sizeOf_lt_of_mem_fields hkv2
                  omega
                · refine le_trans (Finset.card_le_card ?_) hcard
                  intro x hx
                  simp only [Finset.mem_sdiff, Finset.mem_union] at hx ⊢
                  obtain ⟨hx1, hx2⟩ := hx
                  refine ⟨?_, hx2⟩
                  rcases hx1 with hA | hV
                  · exact Or.inl hA
                  · exact Or.inr (refStrings_field_subset hkv2 hV)
              obtain ⟨fuel, hf⟩ := dereference_fields_exists fields vis d hvals c
              refine ⟨fuel + 1, ?_⟩
              rw [dereference_object_noref hdep hg]
              cases hff : dereference_fields fuel spec c fields vis d with
              | none => rw [hff] at hf; simp at hf
              | some r2 => rfl
          | .arr items, hsz, hcard =>
            rw [refStrings_arr] at hcard
            have hvals : ∀ v ∈ items, ∀ (c' : Cache),
                ∃ fuel, (dereference_object fuel spec c' v vis (d+1)).isSome = true := by
              intro v hv c'
              refine ihm v ?_ c' vis (d+1) ?_
              · have := sizeOf_lt_of_mem_items hv
                omega
              · refine le_trans (Finset.card_le_card ?_) hcard
                intro x hx
                simp only [Finset.mem_sdiff, Finset.mem_union] at hx ⊢
                obtain ⟨hx1, hx2⟩ := hx
                refine ⟨?_, hx2⟩
                rcases hx1 with hA | hV
                · exact Or.inl hA
                · exact Or.inr (refStrings_item_subset hv hV)
            obtain ⟨fuel, hf⟩ := dereference_items_exists items vis d hvals c
            refine ⟨fuel + 1, ?_⟩
            rw [dereference_object_arr hdep]
            cases hii : dereference_items fuel spec c items vis d with
            | none => rw [hii] at hf; simp at hf
            | some r2 => rfl
    exact ⟨hres, hder⟩

/-- C3: dereferencing terminates on every document, including cyclic
ones — for every document, node, cache, chain and depth some fuel makes
the embedded interpreter return (the fuel models only the call budget the
Python recursion actually consumes, so this is termination of the
source recursion); and whenever a ref is resolved while already on the
active resolution chain of the current call (the `visited` set, not a
global set), the result is the circular-reference placeholder, the cache
is untouched and no recursion into the ref happens. -/
theorem C3_termination_and_cycle_placeholder :
    (∀ (spec : Json) (c : Cache) (o : Json) (vis : List String) (d : Nat),
      ∃ fuel, (dereference_object fuel spec c o vis d).isSome = true) ∧
    (∀ (fuel : Nat) (spec : Json) (c : Cache) (ref : String) (vis : List String),
      vis.contains ref = true →
      resolve_reference (fuel+1) spec c ref vis = (.ok (circularPlaceholder ref), c)) := by
  constructor
  · intro spec c o vis d
    exact (resolve_deref_exists (((refStrings spec ∪ refStrings o) \ vis.toFinset).card) spec).2
      (sizeOf o) o le_rfl c vis d le_rfl
  · intro fuel spec c ref vis h
    exact resolve_reference_visited h

/-- Document with the two-step cycle A -> B -> A. -/
def specAB : Json := .obj [("components", .obj [("schemas", .obj
  [("A", .obj [("x", .obj [("$ref", .str "#/components/schemas/B")])]),
   ("B", .obj [("y", .obj [("$ref", .str "#/components/schemas/A")])])])])]

/-- C3 witness: dereferencing a ref to `A` in the cyclic document
terminates, and resolving a ref already on the chain yields the circular
placeholder with the cache unchanged. -/
theorem C3_termination_and_cycle_placeholder_witness :
    (∃ fuel, (dereference_object fuel specAB []
        (.obj [("$ref", .str "#/components/schemas/A")]) [] 0).isSome = true) ∧
    resolve_reference 10 specAB [] "#/components/schemas/A"
        ["#/components/schemas/A"] =
      (.ok (circularPlaceholder "#/components/schemas/A"), []) :=
  ⟨C3_termination_and_cycle_placeholder.1 specAB []
      (.obj [("$ref", .str "#/components/schemas/A")]) [] 0,
   C3_termination_and_cycle_placeholder.2 9 specAB [] "#/components/schemas/A"
      ["#/components/schemas/A"] rfl⟩
